import Mathlib

/-!
Shallow embedding of the `spice` Dune client (modules `spice._extract`,
`spice._cache`, `spice._urls`) and proofs about its behaviour.

Python strings are modelled as Lean `String`; where Python string methods
are used symbolically (`startswith`, `split`, `int(...)` parsing), the
embedding implements them over `List Char` so that the proofs can reason
about them and concrete inputs evaluate inside the kernel.

Query parameter mappings (`Mapping[str, Any]`) are modelled as insertion
ordered association lists of scalar values, matching the spec's data model
("parameters: ordered mapping string→scalar").
-/

namespace Spice

/-- Decidable equality for `Except`, used to evaluate the embedded
fallible functions on concrete inputs. -/
instance {ε α : Type} [DecidableEq ε] [DecidableEq α] : DecidableEq (Except ε α) := fun a b => by
  cases a <;> cases b <;>
    first
      | (rename_i x y
         exact if h : x = y then isTrue (by rw [h]) else isFalse (by simp [h]))
      | exact isFalse (by simp)

/-! ## Character and string utilities (Python string methods) -/

/-- Lexicographic comparison of character lists by code point, mirroring
Python string `<=` used by `json.dumps(sort_keys=True)`. -/
def lexLeB : List Char → List Char → Bool
  | [], _ => true
  | _ :: _, [] => false
  | a :: as, b :: bs =>
    if a.toNat < b.toNat then true
    else if b.toNat < a.toNat then false
    else lexLeB as bs

/-- Python string `<=` on Lean strings. -/
def strLeB (a b : String) : Bool := lexLeB a.toList b.toList

/-- Python `s.startswith(pre)`. -/
def pyStartsWith (s pre : String) : Bool := pre.toList.isPrefixOf s.toList

/-- First occurrence of `sep` in `l`: `some (before, after)` where
`l = before ++ sep ++ after` and `before` is minimal. -/
def findSplit (sep : List Char) : List Char → Option (List Char × List Char)
  | [] => if sep.isEmpty then some ([], []) else none
  | c :: rest =>
    if sep.isPrefixOf (c :: rest) then some ([], (c :: rest).drop sep.length)
    else (findSplit sep rest).map (fun pr => (c :: pr.1, pr.2))

/-- Fuel-driven splitter; the fuel only needs to exceed the number of
separator occurrences, which `chSplitOn` supplies. -/
def chSplitOnF (sep : List Char) : Nat → List Char → List (List Char)
  | 0, l => [l]
  | fuel + 1, l =>
    match findSplit sep l with
    | none => [l]
    | some (pre, rest) => pre :: chSplitOnF sep fuel rest

/-- Python `s.split(sep)` for a nonempty separator, over char lists. -/
def chSplitOn (sep l : List Char) : List (List Char) :=
  if sep.isEmpty then [l] else chSplitOnF sep (l.length + 1) l

/-- Python `s.split(sep)` on Lean strings. -/
def pySplit (s sep : String) : List String :=
  (chSplitOn sep.toList s.toList).map List.asString

/-- Whether a character is an ASCII decimal digit. -/
def isDigitChar (c : Char) : Bool := '0'.toNat ≤ c.toNat && c.toNat ≤ '9'.toNat

/-- Numeric value of a list of digit characters (most significant first). -/
def digitsToNat : List Char → Nat → Nat
  | [], acc => acc
  | c :: cs, acc => digitsToNat cs (acc * 10 + (c.toNat - '0'.toNat))

/-- Parse a nonempty all-digit character list. -/
def parseDigits (l : List Char) : Option Nat :=
  if l.isEmpty then none
  else if l.all isDigitChar then some (digitsToNat l 0) else none

/-- Whether a character is ASCII whitespace (the characters Python's
`int(str)` strips). -/
def isSpaceChar (c : Char) : Bool :=
  c = ' ' || c = '\t' || c = '\n' || c = '\x0d' || c = '\x0c' || c = '\x0b'

/-- Python `int(s)` for decimal strings: strips surrounding whitespace,
accepts an optional sign followed by digits; `none` when `int` would raise
`ValueError` (underscore digit grouping is not modelled). -/
def pyIntOfStr (s : String) : Option Int :=
  let t := (s.toList.dropWhile isSpaceChar).reverse.dropWhile isSpaceChar |>.reverse
  match t with
  | [] => none
  | d :: rest =>
    if d = '-' then (parseDigits rest).map (fun n => -(n : Int))
    else if d = '+' then (parseDigits rest).map (fun n => (n : Int))
    else (parseDigits (d :: rest)).map (fun n => (n : Int))

/-! ## Timestamp parsing

`_extract._parse_timestamp` uses `datetime.strptime` with format
`%Y-%m-%dT%H:%M:%S.%fZ` and converts to an integer UTC epoch; the result
retrieval path parses `%Y-%m-%d %H:%M:%S%.3f %Z` columns via polars.
Both are modelled explicitly with a civil-date to epoch-day conversion. -/

/-- Whether year `y` is a leap year (proleptic Gregorian). -/
def isLeapYear (y : Nat) : Bool := (y % 4 = 0 && y % 100 ≠ 0) || y % 400 = 0

/-- Number of days in month `m` of year `y`. -/
def daysInMonth (y m : Nat) : Nat :=
  if m = 2 then (if isLeapYear y then 29 else 28)
  else if m = 4 || m = 6 || m = 9 || m = 11 then 30
  else 31

/-- Whether `(y, m, d)` is a valid calendar date with a 4-digit year. -/
def isValidDate (y m d : Nat) : Bool :=
  1 ≤ y && 1 ≤ m && m ≤ 12 && 1 ≤ d && d ≤ daysInMonth y m

/-- Days from 0000-03-01 to the civil date `(y, m, d)` (valid for `y ≥ 1`);
1970-01-01 is day 719468 in this scheme. -/
def daysFromCivil (y m d : Nat) : Nat :=
  let yy := if m ≤ 2 then y - 1 else y
  let era := yy / 400
  let yoe := yy % 400
  let mp := (m + 9) % 12
  let doy := (153 * mp + 2) / 5 + d - 1
  let yda := yoe * 365 + yoe / 4 - yoe / 100 + doy
  era * 146097 + yda

/-- UTC epoch seconds of a civil date-time. -/
def epochSecs (y m d hh mm ss : Nat) : Int :=
  ((daysFromCivil y m d : Int) - 719468) * 86400 + hh * 3600 + mm * 60 + ss

/-- Take exactly `n` digit characters; `some (value, rest)` on success. -/
def takeDigits (n : Nat) (l : List Char) : Option (Nat × List Char) :=
  let ds := l.take n
  if ds.length = n && ds.all isDigitChar then some (digitsToNat ds 0, l.drop n)
  else none

/-- Consume a literal character. -/
def expectChar (c : Char) : List Char → Option (List Char)
  | x :: rest => if x = c then some rest else none
  | [] => none

/-- Parse `YYYY<s1>MM<s2>DD<s3>HH:MM:SS`, the shared prefix of both
timestamp formats; returns the six components and the remaining input. -/
def parseCivilPrefix (dateSep : Char) (dtSep : Char) (l : List Char) :
    Option ((Nat × Nat × Nat × Nat × Nat × Nat) × List Char) := do
  let (y, l) ← takeDigits 4 l
  let l ← expectChar dateSep l
  let (mo, l) ← takeDigits 2 l
  let l ← expectChar dateSep l
  let (d, l) ← takeDigits 2 l
  let l ← expectChar dtSep l
  let (hh, l) ← takeDigits 2 l
  let l ← expectChar ':' l
  let (mi, l) ← takeDigits 2 l
  let l ← expectChar ':' l
  let (ss, l) ← takeDigits 2 l
  if isValidDate y mo d && hh ≤ 23 && mi ≤ 59 && ss ≤ 59 then
    some ((y, mo, d, hh, mi, ss), l)
  else none

/-- The `_parse_timestamp` function of `spice._extract`: truncates an over
long fraction, parses `%Y-%m-%dT%H:%M:%S.%fZ` and returns `int(ts)` of the
UTC epoch value (truncation toward zero). -/
def parse_timestamp (timestamp : String) : Except String Int :=
  let cs := timestamp.toList
  let cs := if cs.length > 27 && cs.getLast? = some 'Z' then cs.take 26 ++ ['Z'] else cs
  match parseCivilPrefix '-' 'T' cs with
  | none => .error "time data does not match format"
  | some ((y, mo, d, hh, mi, ss), rest) =>
    match rest with
    | '.' :: tail =>
      let frac := tail.takeWhile isDigitChar
      let tail2 := tail.dropWhile isDigitChar
      if 1 ≤ frac.length && frac.length ≤ 6 && tail2 = ['Z'] then
        let secs := epochSecs y mo d hh mi ss
        .ok (if secs ≥ 0 then secs
             else if digitsToNat frac 0 > 0 then secs + 1 else secs)
      else .error "time data does not match format"
    | _ => .error "time data does not match format"

/-- The fixed result-column timestamp format `%Y-%m-%d %H:%M:%S%.3f %Z`
used by `_process_raw_table` for resolved timestamp columns: date and time
separated by a space, an optional dot plus exactly three fraction digits,
a space and a nonempty timezone name (taken as UTC). The value is the UTC
epoch in milliseconds. -/
def parseResultTimestamp (s : String) : Option Int :=
  match parseCivilPrefix '-' ' ' s.toList with
  | none => none
  | some ((y, mo, d, hh, mi, ss), rest) =>
    let (millis, rest) :=
      match rest with
      | '.' :: tail =>
        match takeDigits 3 tail with
        | some (f, tail2) => (some f, tail2)
        | none => (none, '.' :: tail)
      | _ => (some 0, rest)
    match millis, rest with
    | some f, ' ' :: tz =>
      if tz ≠ [] && tz.all (fun c => c.isAlpha) then
        some (epochSecs y mo d hh mi ss * 1000 + f)
      else none
    | _, _ => none

/-! ## Data model (`spice._types`) -/

/-- Scalar Python values occurring in query-parameter mappings. -/
inductive Prim
  | pNone
  | pBool (b : Bool)
  | pInt (i : Int)
  | pStr (s : String)
deriving DecidableEq

/-- A Python value appearing in a request-argument dict: a scalar, a list
of scalars, or a mapping of scalars (one nesting level, per the spec's
"ordered mapping string→scalar" parameter model). -/
inductive PVal
  | prim (p : Prim)
  | plist (l : List Prim)
  | pdict (m : List (String × Prim))
deriving DecidableEq

/-- `spice._types.Execution`: an execution id and the lazily populated
start timestamp (`none` models both an absent and a `None` field). -/
structure Execution where
  execution_id : String
  timestamp : Option Int
deriving DecidableEq

/-- The polars column types the embedding enumerates (a closed subset of
`pl.DataType`). -/
inductive PlDType
  | tInt64
  | tStr
  | tBool
  | tDatetime
deriving DecidableEq

/-- Python `str(type)` of an enumerated polars type. -/
def plDTypeName : PlDType → String
  | .tInt64 => "Int64"
  | .tStr => "String"
  | .tBool => "Boolean"
  | .tDatetime => "Datetime"

/-- A `types`/`all_types` argument: a positional list or a name-keyed
mapping of column type overrides (`none` entries model Python `None`). -/
inductive TypesSpec
  | listT (ts : List (Option PlDType))
  | dictT (m : List (String × Option PlDType))
deriving DecidableEq

/-- `spice._types.ExecuteKwargs`. -/
structure ExecuteKwargs where
  query_id : Option Int
  api_key : Option String
  parameters : Option (List (String × Prim))
  performance : String
deriving DecidableEq

/-- `spice._types.RetrievalKwargs`. -/
structure RetrievalKwargs where
  limit : Option Int
  offset : Option Int
  sample_count : Option Int
  sort_by : Option String
  columns : Option (List String)
  extras : Option (List (String × Prim))
  types : Option TypesSpec
  all_types : Option TypesSpec
  verbose : Bool
deriving DecidableEq

/-- Association-list lookup, modelling Python dict lookup (keys unique). -/
def assocLookup {V : Type} (l : List (String × V)) (k : String) : Option V :=
  (l.find? (fun kv => kv.1 = k)).map Prod.snd

/-- Python `key in dict`. -/
def assocHasKey {V : Type} (l : List (String × V)) (k : String) : Bool :=
  l.any (fun kv => kv.1 = k)

/-! ## URL construction (`spice._urls`) -/

/-- Python `str(value)` of a scalar, as interpolated into a URL. -/
def pyStrPrim : Prim → String
  | .pNone => "None"
  | .pBool b => if b then "True" else "False"
  | .pInt i => toString i
  | .pStr s => s

/-- Python `str(item)`/`','.join(...)` conversion used by
`add_args_to_url` for one value. -/
def pyStrPVal : PVal → String
  | .prim p => pyStrPrim p
  | .plist l => String.intercalate "," (l.map pyStrPrim)
  | .pdict m =>
    "\x7b" ++ String.intercalate ", " (m.map (fun kv => kv.1 ++ ": " ++ pyStrPrim kv.2)) ++ "\x7d"

/-- `_urls.add_args_to_url`'s loop: emit `key=value` pairs separated by
`&`, skipping `None` values; `first` tracks whether a separator is due. -/
def addArgs : List (String × PVal) → Bool → String
  | [], _ => ""
  | (k, v) :: rest, first =>
    if v = .prim .pNone then addArgs rest first
    else (if first then "" else "&") ++ k ++ "=" ++ pyStrPVal v ++ addArgs rest false

/-- `_urls.add_args_to_url`. -/
def addArgsToUrl (url : String) (parameters : List (String × PVal)) : String :=
  url ++ "?" ++ addArgs parameters true

/-- `_urls.get_query_results_url`'s `query_parameters` → `params` rename:
the key is popped and the value re-inserted at the end. -/
def renameQueryParams (l : List (String × PVal)) : List (String × PVal) :=
  match assocLookup l "query_parameters" with
  | none => l
  | some v => l.filter (fun kv => kv.1 ≠ "query_parameters") ++ [("params", v)]

/-- `_urls.get_query_results_url`'s flattening of mapping-valued arguments
into dotted keys appended at the end, in insertion order. -/
def flattenDictArgs (l : List (String × PVal)) : List (String × PVal) :=
  l.filter (fun kv => match kv.2 with | .pdict _ => false | _ => true) ++
    l.flatMap (fun kv =>
      match kv.2 with
      | .pdict m => m.map (fun sub => (kv.1 ++ "." ++ sub.1, PVal.prim sub.2))
      | _ => [])

/-- Base of the CSV results endpoint for a query id
(`url_templates['query_results']`). -/
def queryResultsCsvBase (query_id : Int) : String :=
  "https://api.dune.com/api/v1/query/" ++ toString query_id ++ "/results/csv"

/-- Base of the JSON results endpoint for a query id
(`url_templates['query_results_json']`). -/
def queryResultsJsonBase (query_id : Int) : String :=
  "https://api.dune.com/api/v1/query/" ++ toString query_id ++ "/results"

/-- `_urls.get_query_results_url` for an integer query id. -/
def getQueryResultsUrl (query_id : Int) (data : List (String × PVal)) (csv : Bool) : String :=
  let base := if csv then queryResultsCsvBase query_id else queryResultsJsonBase query_id
  addArgsToUrl base (flattenDictArgs (renameQueryParams data))

/-- The canonical API query-URL accepted by `_urls.get_query_id`. -/
def apiQueryUrlPre : String := "https://api.dune.com/api/v1/query/"

/-- The user-facing web query-URL accepted by `_urls.get_query_id`. -/
def webQueryUrlPre : String := "https://dune.com/queries/"

/-- `_urls.get_query_id` on a string input: strip either accepted URL
prefix down to the first path segment, then parse as an integer. -/
def getQueryIdOfStr (query : String) : Except String Int :=
  let q :=
    if pyStartsWith query apiQueryUrlPre then
      ((pySplit query apiQueryUrlPre).getD 1 "" |> (pySplit · "/")).getD 0 ""
    else if pyStartsWith query "https://dune.com/queries" then
      ((pySplit query webQueryUrlPre).getD 1 "" |> (pySplit · "/")).getD 0 ""
    else query
  match pyIntOfStr q with
  | some n => .ok n
  | none => .error ("invalid query id: " ++ q)

/-! ## Input resolution (`spice._extract._determine_input_type`) -/

/-- The possible Python values of `query_or_execution`: an int, a string,
a dict containing an `execution_id` key, or any other value. -/
inductive QueryInput
  | intQ (n : Int)
  | strQ (s : String)
  | execQ (e : Execution)
  | otherQ
deriving DecidableEq

/-- `_extract._is_sql` on a string: URL-prefixed and integer-parsable
strings are not raw SQL. -/
def isSqlStr (s : String) : Bool :=
  if pyStartsWith s "https://" || pyStartsWith s "api.dune.com" then false
  else (pyIntOfStr s).isNone

/-- Result triple of `_determine_input_type`. -/
structure ResolvedInput where
  query_id : Option Int
  execution : Option Execution
  parameters : Option (List (String × Prim))
deriving DecidableEq

/-- The fixed sentinel query id the raw-SQL path executes through. -/
def rawSqlQueryId : Int := 4060379

/-- `_extract._determine_input_type`. -/
def determineInputType (q : QueryInput) (parameters : Option (List (String × Prim))) :
    Except String ResolvedInput :=
  match q with
  | .intQ n => .ok ⟨some n, none, parameters⟩
  | .strQ s =>
    if s = "" then .error "empty query"
    else if isSqlStr s then .ok ⟨some rawSqlQueryId, none, some [("query", .pStr s)]⟩
    else
      match getQueryIdOfStr s with
      | .ok n => .ok ⟨some n, none, parameters⟩
      | .error e => .error e
  | .execQ e => .ok ⟨none, some e, parameters⟩
  | .otherQ => .error "input must be a query id, query url, or execution id"

/-! ## Cache key derivation (`spice._cache`) -/

/-- The library version tag hashed into every cache key
(`spice.__version__`). -/
def spiceVersion : String := "0.1.10"

/-- One entry of a pre-serialized type override: `str(type)` for a
positional entry, `[name, str(type)]` for a mapping entry. -/
inductive PreTypeEntry
  | s (t : String)
  | pair (name : String) (t : String)
deriving DecidableEq

/-- Python `str(type)` applied to an optional type (`str(None)` is
`"None"`). -/
def pyStrOptType : Option PlDType → String
  | none => "None"
  | some t => plDTypeName t

/-- `_cache._preserialize_types`: a positional list becomes a list of
`str(type)`, a mapping becomes `[name, str(type)]` pairs in insertion
order. -/
def preserializeTypes : Option TypesSpec → Option (List PreTypeEntry)
  | none => none
  | some (.listT ts) => some (ts.map (fun t => .s (pyStrOptType t)))
  | some (.dictT m) => some (m.map (fun kv => .pair kv.1 (pyStrOptType kv.2)))

/-- The `hash_params` dict of `_cache._build_cache_path`: every input that
takes part in the cache hash, and nothing else. -/
structure HashParams where
  spice_version : String
  execution_id : String
  query_id : Option Int
  parameters : Option (List (String × Prim))
  limit : Option Int
  offset : Option Int
  sample_count : Option Int
  sort_by : Option String
  columns : Option (List String)
  extras : Option (List (String × Prim))
  types : Option (List PreTypeEntry)
  all_types : Option (List PreTypeEntry)
deriving DecidableEq

/-- `_cache._build_cache_path`'s `hash_params` value. -/
def buildHashParams (execution : Execution) (ek : ExecuteKwargs) (rk : RetrievalKwargs) :
    HashParams :=
  { spice_version := spiceVersion
    execution_id := execution.execution_id
    query_id := ek.query_id
    parameters := ek.parameters
    limit := rk.limit
    offset := rk.offset
    sample_count := rk.sample_count
    sort_by := rk.sort_by
    columns := rk.columns
    extras := rk.extras
    types := preserializeTypes rk.types
    all_types := preserializeTypes rk.all_types }

/-- Ordering of association-list entries by key, as
`json.dumps(sort_keys=True)` orders object members. -/
def keyLe {V : Type} (a b : String × V) : Prop := strLeB a.1 b.1 = true

instance {V : Type} : DecidableRel (keyLe (V := V)) := fun a b => by
  unfold keyLe; infer_instance

/-- Sort an association list by key (the serializer's `sort_keys=True`). -/
def sortPairs {V : Type} (l : List (String × V)) : List (String × V) :=
  l.insertionSort keyLe

/-- JSON string serialization (quote and backslash escaped; other escapes
do not occur in the hashed values). -/
def serJStr (s : String) : String :=
  "\"" ++ (s.toList.flatMap (fun c => if c = '"' || c = '\\' then ['\\', c] else [c])).asString
    ++ "\""

/-- JSON serialization of a scalar. -/
def serPrim : Prim → String
  | .pNone => "null"
  | .pBool b => if b then "true" else "false"
  | .pInt i => toString i
  | .pStr s => serJStr s

/-- JSON serialization of a scalar mapping with sorted keys, as
`json.dumps(sort_keys=True)` renders a dict. -/
def serPrimDict (m : List (String × Prim)) : String :=
  "\x7b" ++
    String.intercalate ", "
      ((sortPairs m).map (fun kv => serJStr kv.1 ++ ": " ++ serPrim kv.2)) ++
    "\x7d"

/-- JSON serialization of an optional value via `f`. -/
def serOpt {α : Type} (f : α → String) : Option α → String
  | none => "null"
  | some a => f a

/-- JSON serialization of a list via `f`. -/
def serList {α : Type} (f : α → String) (l : List α) : String :=
  "[" ++ String.intercalate ", " (l.map f) ++ "]"

/-- JSON serialization of a pre-serialized type entry. -/
def serPreTypeEntry : PreTypeEntry → String
  | .s t => serJStr t
  | .pair name t => "[" ++ serJStr name ++ ", " ++ serJStr t ++ "]"

/-- `json.dumps(hash_params, sort_keys=True)`: the object's twelve fixed
keys rendered in sorted order. -/
def serHashParams (h : HashParams) : String :=
  "\x7b" ++
    "\"all_types\": " ++ serOpt (serList serPreTypeEntry) h.all_types ++ ", " ++
    "\"columns\": " ++ serOpt (serList serJStr) h.columns ++ ", " ++
    "\"execution_id\": " ++ serJStr h.execution_id ++ ", " ++
    "\"extras\": " ++ serOpt serPrimDict h.extras ++ ", " ++
    "\"limit\": " ++ serOpt toString h.limit ++ ", " ++
    "\"offset\": " ++ serOpt toString h.offset ++ ", " ++
    "\"parameters\": " ++ serOpt serPrimDict h.parameters ++ ", " ++
    "\"query_id\": " ++ serOpt toString h.query_id ++ ", " ++
    "\"sample_count\": " ++ serOpt toString h.sample_count ++ ", " ++
    "\"sort_by\": " ++ serOpt serJStr h.sort_by ++ ", " ++
    "\"spice_version\": " ++ serJStr h.spice_version ++ ", " ++
    "\"types\": " ++ serOpt (serList serPreTypeEntry) h.types ++
  "\x7d"

/-- Python `str(query_id)` where the id may be `None`. -/
def pyStrOptInt : Option Int → String
  | none => "None"
  | some n => toString n

/-- `_cache._build_cache_path`: hash the serialized `hash_params` with the
digest function `h` (modelling `md5.hexdigest`), keep 16 hex characters,
and build `{query_id}__{execution_id}__{parameter_hash}__{timestamp}.parquet`
under the cache directory; an execution without a start timestamp is an
error. -/
def buildCachePath (h : String → String) (execution : Execution) (ek : ExecuteKwargs)
    (rk : RetrievalKwargs) (cache_dir : Option String) : Except String String :=
  let hashStr := ((h (serHashParams (buildHashParams execution ek rk))).toList.take 16).asString
  match execution.timestamp with
  | none => .error "need completion timestamp on execution"
  | some ts =>
    let dir := cache_dir.getD "/tmp/dune_spice"
    .ok (dir ++ "/" ++ pyStrOptInt ek.query_id ++ "__" ++ execution.execution_id ++ "__" ++
      hashStr ++ "__" ++ toString ts ++ ".parquet")

/-- An abstract on-disk table (the parquet payload is opaque to the cache
logic). -/
structure CachedTable where
  payload : String
deriving DecidableEq

/-- `_cache.load_from_cache`, parametrized by the latest execution the
service reports and by the filesystem contents: `(none, none)` when no
execution exists, else the table stored under the derived path (if any)
alongside the execution. -/
def loadFromCache (h : String → String) (latest : Option Execution)
    (fs : String → Option CachedTable) (ek : ExecuteKwargs) (rk : RetrievalKwargs)
    (cache_dir : Option String) : Except String (Option CachedTable × Option Execution) :=
  match latest with
  | none => .ok (none, none)
  | some execution =>
    match buildCachePath h execution ek rk cache_dir with
    | .error e => .error e
    | .ok path =>
      match fs path with
      | some t => .ok (some t, some execution)
      | none => .ok (none, some execution)

/-- `_cache.save_to_cache`: derive the path and atomically publish the
table there; the result is the filesystem update. -/
def saveToCache (h : String → String) (df : CachedTable) (execution : Execution)
    (ek : ExecuteKwargs) (rk : RetrievalKwargs) (cache_dir : Option String) :
    Except String (String × CachedTable) :=
  match buildCachePath h execution ek rk cache_dir with
  | .error e => .error e
  | .ok path => .ok (path, df)

/-! ## Table decoding (`spice._extract._process_raw_table`)

`pl.read_csv` with an all-`String` schema is modelled as a line/comma
splitter with the `<nil>` null token and ragged-line truncation (quoting
does not occur in the claims' inputs); type inference and casting model
the polars behaviour on the enumerated types. -/

/-- One CSV cell: the `<nil>` token is the null value. -/
def parseCsvCell (s : String) : Option String :=
  if s = "<nil>" then none else some s

/-- The raw all-string table `pl.read_csv` produces: header names and
row-major cells. -/
structure RawTable where
  header : List String
  rows : List (List (Option String))
deriving DecidableEq

/-- `pl.read_csv(raw, schema_overrides=[String...], null_values='<nil>',
truncate_ragged_lines=True)`: header from the first line, data rows split
on commas, truncated to the header width and padded with nulls. -/
def readCsv (raw : String) : RawTable :=
  let lines := pySplit raw "\n"
  let header := pySplit (lines.getD 0 "") ","
  let n := header.length
  let dataLines := (lines.drop 1).filter (fun l => l ≠ "")
  let rows := dataLines.map (fun l =>
    let fields := ((pySplit l ",").take n).map parseCsvCell
    fields ++ List.replicate (n - fields.length) none)
  ⟨header, rows⟩

/-- One named raw column. -/
structure RawColumn where
  name : String
  cells : List (Option String)
deriving DecidableEq

/-- Column-major view of a raw table, in header order. -/
def tableCols (t : RawTable) : List RawColumn :=
  (List.range t.header.length).map (fun c =>
    ⟨t.header.getD c "", t.rows.map (fun r => r.getD c none)⟩)

/-- Whether a string is a decimal integer literal polars casts to Int64. -/
def isIntLit (s : String) : Bool :=
  match s.toList with
  | '-' :: rest => !rest.isEmpty && rest.all isDigitChar
  | l => !l.isEmpty && l.all isDigitChar

/-- `_extract.infer_type`: re-serialize the column and re-parse with
automatic detection; modelled as Int64 for all-integer columns with at
least one value, String otherwise. -/
def inferType (cells : List (Option String)) : PlDType :=
  let vals := cells.filterMap id
  if !vals.isEmpty && vals.all isIntLit then .tInt64 else .tStr

/-- The explicit override for column `c` named `name`: a positional entry
or a mapping entry, skipped when absent or `None`. -/
def lookupOverride (spec : Option TypesSpec) (c : Nat) (name : String) : Option PlDType :=
  match spec with
  | none => none
  | some (.listT ts) => ts.getD c none
  | some (.dictT m) =>
    match assocLookup m name with
    | some (some t) => some t
    | _ => none

/-- The `types` value after `_process_raw_table` substitutes `all_types`
for it. -/
def effTypes (types all_types : Option TypesSpec) : Option TypesSpec :=
  if all_types.isSome then all_types else types

/-- The type the decoding loop resolves for column `c`: the explicit
override when given, else the inferred type. -/
def resolveType (eff : Option TypesSpec) (c : Nat) (name : String)
    (cells : List (Option String)) : PlDType :=
  (lookupOverride eff c name).getD (inferType cells)

/-- A typed cell of the output table. -/
inductive Cell
  | null
  | cstr (s : String)
  | cint (i : Int)
  | cbool (b : Bool)
  | cdt (t : Int)
deriving DecidableEq

/-- One typed output column. -/
structure Column where
  name : String
  dtype : PlDType
  cells : List Cell
deriving DecidableEq

/-- `pl.col(column).str.to_datetime('%Y-%m-%d %H:%M:%S%.3f %Z')` applied
to one cell (strict: an unparseable value is an error, null passes). -/
def convertDtCell (oc : Option String) : Except String Cell :=
  match oc with
  | none => .ok .null
  | some s =>
    match parseResultTimestamp s with
    | some t => .ok (.cdt t)
    | none => .error ("could not parse timestamp: " ++ s)

/-- The strict datetime conversion of a whole column. -/
def convertDtCells (cells : List (Option String)) : Except String (List Cell) :=
  cells.mapM convertDtCell

/-- A column after the resolution loop: either already converted to
datetime, or pending a cast to its resolved type. -/
inductive Stage1Entry
  | dtDone (cells : List Cell)
  | pending (t : PlDType) (cells : List (Option String))
deriving DecidableEq

/-- The resolution loop of `_process_raw_table`: resolve each column's
type in header order, converting resolved-datetime columns immediately
with the fixed format and leaving the rest for the cast pass. -/
def resolveLoop (eff : Option TypesSpec) : List RawColumn → Nat →
    Except String (List (String × Stage1Entry))
  | [], _ => .ok []
  | col :: rest, c =>
    let t := resolveType eff c col.name col.cells
    if t = .tDatetime then
      match convertDtCells col.cells with
      | .error e => .error e
      | .ok cells =>
        match resolveLoop eff rest (c + 1) with
        | .error e => .error e
        | .ok tail => .ok ((col.name, .dtDone cells) :: tail)
    else
      match resolveLoop eff rest (c + 1) with
      | .error e => .error e
      | .ok tail => .ok ((col.name, .pending t col.cells) :: tail)

/-- Error message for mapping keys that name no data column. -/
def typesForMissingMsg (missing : List String) : String :=
  "types specified for missing columns: " ++ String.intercalate ", " missing

/-- Error message for data columns the strict mapping does not cover. -/
def typesNotSpecifiedMsg (missing : List String) : String :=
  "types not specified for columns: " ++ String.intercalate ", " missing

/-- Python `name in all_types`: key membership for a mapping; for a
positional list the column name (a string) is compared against type
objects, which is never true in the source. -/
def allTypesContains (spec : TypesSpec) (name : String) : Bool :=
  match spec with
  | .listT _ => false
  | .dictT m => assocHasKey m name

/-- Cast of one cell to a resolved non-datetime type: boolean columns are
computed as literal equality to `"true"` (null propagates), Int64 casts
parse strictly, String casts are the identity. -/
def castCell (t : PlDType) (oc : Option String) : Except String Cell :=
  match t, oc with
  | _, none => .ok .null
  | .tBool, some s => .ok (.cbool (s = "true"))
  | .tInt64, some s =>
    match pyIntOfStr s with
    | some i => if isIntLit s then .ok (.cint i) else .error ("cast to Int64 failed: " ++ s)
    | none => .error ("cast to Int64 failed: " ++ s)
  | .tStr, some s => .ok (.cstr s)
  | .tDatetime, some s => convertDtCell (some s)

/-- The cast pass of `_process_raw_table` (`df.with_columns`): datetime
columns are already converted, the rest are cast to their resolved type. -/
def castLoop : List (String × Stage1Entry) → Except String (List Column)
  | [] => .ok []
  | (name, .dtDone cells) :: rest =>
    match castLoop rest with
    | .error e => .error e
    | .ok tail => .ok (⟨name, .tDatetime, cells⟩ :: tail)
  | (name, .pending t cells) :: rest =>
    match cells.mapM (castCell t) with
    | .error e => .error e
    | .ok cast =>
      match castLoop rest with
      | .error e => .error e
      | .ok tail => .ok (⟨name, t, cast⟩ :: tail)

/-- The mapping keys that name no data column
(`[name for name in types.keys() if name not in df.columns]`). -/
def dictMissingCols (eff : Option TypesSpec) (header : List String) : List String :=
  match eff with
  | some (.dictT m) => (m.map Prod.fst).filter (fun k => !header.contains k)
  | _ => []

/-- The data columns the strict `all_types` override does not cover
(`[name for name in df.columns if name not in all_types]`). -/
def coverMissingCols (all_types : Option TypesSpec) (header : List String) : List String :=
  match all_types with
  | some spec => header.filter (fun nm => !allTypesContains spec nm)
  | none => []

/-- `_extract._process_raw_table`: parse the raw CSV as all-string
columns, resolve each column's type (explicit override, else inference),
convert datetime columns with the fixed format, enforce the mapping-key
and strict-coverage checks, then cast the remaining columns. -/
def processRawTable (raw : String) (types all_types : Option TypesSpec) :
    Except String (List Column) :=
  let tbl := readCsv raw
  let cols := tableCols tbl
  if all_types.isSome && types.isSome then
    .error "cannot specify both types and all_types"
  else
    let eff := effTypes types all_types
    match resolveLoop eff cols 0 with
    | .error e => .error e
    | .ok stage1 =>
      let dictMissing := dictMissingCols eff tbl.header
      if !dictMissing.isEmpty then .error (typesForMissingMsg dictMissing)
      else
        let coverMissing := coverMissingCols all_types tbl.header
        if !coverMissing.isEmpty then .error (typesNotSpecifiedMsg coverMissing)
        else castLoop stage1

/-! ## Result pagination (`spice._extract._get_results`) -/

/-- One decoded results page: its rows and whether the response carried
the `x-dune-next-uri` continuation header. -/
structure Page (α : Type) where
  rows : List α
  next : Bool

/-- The pagination loop of `_get_results`: while the current response has
a continuation header and fewer than `limit` rows are accumulated, fetch
and decode the next page of the continuation chain and append it. -/
def gatherPages {α : Type} (limit : Nat) : List (Page α) → Nat → Bool → List (List α)
  | [], _, _ => []
  | p :: rest, acc, nxt =>
    if nxt && decide (acc < limit) then
      p.rows :: gatherPages limit rest (acc + p.rows.length) p.next
    else []

/-- `_get_results` from the first decoded page on: without a limit the
first page is the result; with a limit the consumed pages are concatenated
and truncated with `.limit(limit)`. -/
def getResultsPaged {α : Type} (limit : Option Nat) (first : Page α) (chain : List (Page α)) :
    List α :=
  match limit with
  | none => first.rows
  | some l => ((first.rows :: gatherPages l chain first.rows.length first.next).flatten).take l

/-- The continuation flag seen before consuming page `j` of the chain
(`j = 0` is the first response's flag). -/
def flagAt {α : Type} (nxt : Bool) : List (Page α) → Nat → Bool
  | _, 0 => nxt
  | [], _ + 1 => nxt
  | p :: rest, j + 1 => flagAt p.next rest j

/-- The accumulated row count before consuming page `j` of the chain. -/
def accAt {α : Type} (acc : Nat) : List (Page α) → Nat → Nat
  | _, 0 => acc
  | [], _ + 1 => acc
  | p :: rest, j + 1 => accAt (acc + p.rows.length) rest j

/-! ## Completion polling (`spice._extract._poll_execution`) -/

/-- One status-endpoint response: a rate-limit response without an
`is_execution_finished` field, or a status payload. -/
inductive PollResp
  | rateLimited
  | statusR (finished : Bool) (state : String) (started_at : Option String)
deriving DecidableEq

/-- Whether a response reports the execution finished. -/
def isFinishedResp : PollResp → Bool
  | .statusR true _ _ => true
  | _ => false

/-- How a polling run ends. -/
inductive PollOutcome
  | failed (execution_id : String)
  | done (e : Execution)
  | err (msg : String)
  | exhausted
deriving DecidableEq

/-- A polling run's outcome together with its sleep log. -/
structure PollRun where
  outcome : PollOutcome
  rlSleeps : List ℚ
  tickSleeps : List ℚ

/-- The polling loop of `_poll_execution` over a finite response trace:
429 responses multiply the backoff by the next random factor and sleep
that long; an unfinished status sleeps the remainder of the poll interval;
a finished status raises on `QUERY_STATE_FAILED` and otherwise populates
the execution timestamp from `execution_started_at` and returns.
`factors` streams the `random.uniform(1, 2)` draws and `elapsed` the
per-tick wall-clock delays. -/
def pollLoop (execution_id : String) (poll_interval : ℚ) (factors elapsed : Nat → ℚ) :
    List PollResp → ℚ → Nat → Nat → PollRun
  | [], _, _, _ => ⟨.exhausted, [], []⟩
  | .rateLimited :: rest, backoff, fi, ei =>
    let b := backoff * factors fi
    let out := pollLoop execution_id poll_interval factors elapsed rest b (fi + 1) ei
    ⟨out.outcome, b :: out.rlSleeps, out.tickSleeps⟩
  | .statusR true state started_at :: _, _, _, _ =>
    if state = "QUERY_STATE_FAILED" then ⟨.failed execution_id, [], []⟩
    else
      match started_at with
      | none => ⟨.err "execution_started_at missing from status", [], []⟩
      | some s =>
        match parse_timestamp s with
        | .error e => ⟨.err e, [], []⟩
        | .ok t => ⟨.done ⟨execution_id, some t⟩, [], []⟩
  | .statusR false _ _ :: rest, backoff, fi, ei =>
    let w := elapsed ei
    let out := pollLoop execution_id poll_interval factors elapsed rest backoff fi (ei + 1)
    if w < poll_interval then
      ⟨out.outcome, out.rlSleeps, (poll_interval - w) :: out.tickSleeps⟩
    else ⟨out.outcome, out.rlSleeps, out.tickSleeps⟩

/-- `_poll_execution`: the loop starts with the backoff seeded at the
configured poll interval. -/
def pollExecution (execution : Execution) (poll_interval : ℚ) (factors elapsed : Nat → ℚ)
    (resps : List PollResp) : PollRun :=
  pollLoop execution.execution_id poll_interval factors elapsed resps poll_interval 0 0

/-! ## Latest-execution lookup (`spice._extract.get_latest_execution`) -/

/-- One JSON response of the results endpoint as the lookup reads it: an
error envelope with an HTTP status, or an execution-metadata payload. -/
inductive LatestResp
  | errB (status : Nat) (msg : String)
  | okB (is_execution_finished : Bool) (execution_id : String) (execution_started_at : Option String)
deriving DecidableEq

/-- The service's "no execution exists" error message. -/
def noExecutionMsg : String :=
  "not found: No execution found for the latest version of the given query"

/-- Outcome of `get_latest_execution` on a response trace, with the log of
backoff sleeps the run performed. -/
structure LatestRun where
  result : Except String (Option Execution)
  sleeps : List ℚ
deriving DecidableEq

/-- The request data of `get_latest_execution`: the caller's parameters
(if any) under `query_parameters`, then `limit = 0`. -/
def latestExecData (parameters : Option (List (String × Prim))) : List (String × PVal) :=
  (match parameters with
   | some ps => [("query_parameters", PVal.pdict ps)]
   | none => []) ++ [("limit", PVal.prim (.pInt 0))]

/-- The URL `get_latest_execution` requests (the JSON results endpoint). -/
def latestExecUrl (query_id : Int) (parameters : Option (List (String × Prim))) : String :=
  getQueryResultsUrl query_id (latestExecData parameters) false

/-- The body of `get_latest_execution`'s request loop as the source writes
it: an error envelope either returns `none` (no execution), or — after a
backoff sleep when the status is 429 — raises the error; a metadata
payload breaks out of the loop and is processed. The `while True:` loop
contains no `continue`, so only the first response is ever consumed. -/
def getLatestExecution (allow_unfinished : Bool) (factors : Nat → ℚ)
    (resps : List LatestResp) : LatestRun :=
  match resps with
  | [] => ⟨.error "no response", []⟩
  | .errB status msg :: _ =>
    if msg = noExecutionMsg then ⟨.ok none, []⟩
    else if status = 429 then ⟨.error msg, [1 * factors 0]⟩
    else ⟨.error msg, []⟩
  | .okB finished execution_id started_at :: _ =>
    if !finished && !allow_unfinished then ⟨.ok none, []⟩
    else
      match started_at with
      | none => ⟨.ok (some ⟨execution_id, none⟩), []⟩
      | some s =>
        match parse_timestamp s with
        | .error e => ⟨.error e, []⟩
        | .ok t => ⟨.ok (some ⟨execution_id, some t⟩), []⟩

/-! ## Lemmas about the string utilities -/

/-- First path segment of a URL tail (`tail.split('/')[0]`). -/
def firstSeg (tail : String) : String := (pySplit tail "/").getD 0 ""

theorem toList_append (s t : String) : (s ++ t).toList = s.toList ++ t.toList := by
  simp [String.toList]

theorem asString_toList (s : String) : s.toList.asString = s := rfl

theorem isEmpty_false_of_ne {sep : List Char} (hs : sep ≠ []) : sep.isEmpty = false := by
  cases sep with
  | nil => exact absurd rfl hs
  | cons a as => rfl

theorem one_le_length_of_ne {sep : List Char} (hs : sep ≠ []) : 1 ≤ sep.length := by
  cases sep with
  | nil => exact absurd rfl hs
  | cons a as => simp

theorem isPrefixOf_self_append (l t : List Char) : l.isPrefixOf (l ++ t) = true := by
  rw [List.isPrefixOf_iff_prefix]
  exact List.prefix_append l t

theorem isPrefixOf_append_of_prefix {p l : List Char} (t : List Char)
    (h : p.isPrefixOf l = true) : p.isPrefixOf (l ++ t) = true := by
  rw [List.isPrefixOf_iff_prefix] at h ⊢
  exact h.trans (List.prefix_append l t)

theorem isPrefixOf_append_false {p l : List Char} (t : List Char) (hlen : l.length ≤ p.length)
    (hne : p.take l.length ≠ l) : p.isPrefixOf (l ++ t) = false := by
  by_contra hc
  rw [Bool.not_eq_false, List.isPrefixOf_iff_prefix] at hc
  apply hne
  have h1 : p.take l.length <+: l ++ t := (List.take_prefix _ p).trans hc
  have h2 : (p.take l.length).length = l.length := by
    simp [List.length_take, Nat.min_eq_left hlen]
  exact (List.prefix_of_prefix_length_le h1 (List.prefix_append l t) (by rw [h2])).eq_of_length h2

theorem findSplit_prefix_append (sep l : List Char) (hs : sep ≠ []) :
    findSplit sep (sep ++ l) = some ([], l) := by
  match sep, hs with
  | c :: cs, _ =>
    show findSplit (c :: cs) (c :: (cs ++ l)) = some ([], l)
    rw [findSplit]
    have : (c :: cs).isPrefixOf (c :: (cs ++ l)) = true := isPrefixOf_self_append (c :: cs) l
    simp only [this, if_true]
    have hd : (c :: (cs ++ l)).drop (c :: cs).length = l := List.drop_left (c :: cs) l
    rw [hd]

theorem findSplit_rest_length {sep : List Char} (hs : sep ≠ []) :
    ∀ l pre rest, findSplit sep l = some (pre, rest) → rest.length < l.length := by
  intro l
  induction l with
  | nil =>
    intro pre rest h
    rw [findSplit, if_neg (by rw [isEmpty_false_of_ne hs]; simp)] at h
    exact Option.noConfusion h
  | cons c tail ih =>
    intro pre rest h
    rw [findSplit] at h
    by_cases hp : sep.isPrefixOf (c :: tail) = true
    · rw [if_pos hp] at h
      simp only [Option.some.injEq, Prod.mk.injEq] at h
      obtain ⟨-, hr⟩ := h
      subst hr
      have h1 := one_le_length_of_ne hs
      simp only [List.length_drop, List.length_cons]
      omega
    · rw [if_neg hp] at h
      cases hf : findSplit sep tail with
      | none => rw [hf] at h; exact Option.noConfusion h
      | some pr =>
        rw [hf] at h
        simp only [Option.map_some', Option.some.injEq] at h
        injection h with h1 h2
        rw [← h2]
        exact Nat.lt_succ_of_lt (ih pr.1 pr.2 (by rw [hf]))

theorem chSplitOnF_congr {sep : List Char} (hs : sep ≠ []) :
    ∀ f₁ f₂ l, l.length < f₁ → l.length < f₂ →
      chSplitOnF sep f₁ l = chSplitOnF sep f₂ l := by
  intro f₁
  induction f₁ with
  | zero => intro f₂ l h1 _; omega
  | succ n ih =>
    intro f₂ l h1 h2
    match f₂, h2 with
    | m + 1, _ =>
      rw [chSplitOnF, chSplitOnF]
      cases hf : findSplit sep l with
      | none => rfl
      | some pr =>
        have hr := findSplit_rest_length hs l pr.1 pr.2 (by rw [hf])
        show pr.1 :: chSplitOnF sep n pr.2 = pr.1 :: chSplitOnF sep m pr.2
        rw [ih m pr.2 (by omega) (by omega)]

theorem chSplitOn_prefix_append (sep l : List Char) (hs : sep ≠ []) :
    chSplitOn sep (sep ++ l) = [] :: chSplitOn sep l := by
  rw [chSplitOn, chSplitOn, isEmpty_false_of_ne hs]
  simp only [Bool.false_eq_true, if_false]
  rw [chSplitOnF, findSplit_prefix_append sep l hs]
  show ([] : List Char) :: chSplitOnF sep ((sep ++ l).length) l = [] :: chSplitOnF sep (l.length + 1) l
  have h1 := one_le_length_of_ne hs
  rw [chSplitOnF_congr hs ((sep ++ l).length) (l.length + 1) l (by simp; omega) (by omega)]

theorem chSplitOn_no_occurrence (sep l : List Char) (h : findSplit sep l = none) :
    chSplitOn sep l = [l] := by
  rw [chSplitOn]
  by_cases he : sep.isEmpty = true
  · rw [if_pos he]
  · rw [if_neg he, chSplitOnF, h]

theorem toList_ne_of_ne {pre : String} (hp : pre ≠ "") : pre.toList ≠ [] := by
  intro hc
  exact hp (by rw [← asString_toList pre, hc]; rfl)

theorem pySplit_prefix_append (pre tail : String) (hp : pre ≠ "")
    (h : findSplit pre.toList tail.toList = none) :
    pySplit (pre ++ tail) pre = ["", tail] := by
  rw [pySplit, toList_append, chSplitOn_prefix_append _ _ (toList_ne_of_ne hp),
    chSplitOn_no_occurrence _ _ h]
  show [([] : List Char).asString, tail.toList.asString] = ["", tail]
  rw [asString_toList]
  rfl

theorem ne_empty_of_prefix_ne (pre tail : String) (hp : pre ≠ "") : pre ++ tail ≠ "" := by
  intro hc
  apply toList_ne_of_ne hp
  have h0 : (pre ++ tail).toList = [] := by rw [hc]; rfl
  rw [toList_append] at h0
  cases hl : pre.toList with
  | nil => rfl
  | cons a as => rw [hl] at h0; exact List.noConfusion h0

/-! ## Lemmas about integer-parsing strings -/

theorem pyIntOfStr_head_constraint {s : String} {n : Int} {c : Char}
    (hn : pyIntOfStr s = some n) (hc : s.toList.head? = some c) :
    isSpaceChar c = true ∨ c = '-' ∨ c = '+' ∨ isDigitChar c = true := by
  by_cases hsp : isSpaceChar c = true
  · exact Or.inl hsp
  · obtain ⟨xs, hX⟩ : ∃ xs, s.toList = c :: xs := by
      cases hl : s.toList with
      | nil => rw [hl] at hc; exact Option.noConfusion hc
      | cons a as =>
        rw [hl] at hc
        simp only [List.head?_cons, Option.some.injEq] at hc
        exact ⟨as, by rw [hc]⟩
    rw [pyIntOfStr] at hn
    set A := s.toList.dropWhile isSpaceChar with hA
    have hAv : A = c :: xs := by
      rw [hA, hX, List.dropWhile_cons, if_neg (by simp [hsp])]
    set t := (A.reverse.dropWhile isSpaceChar).reverse with ht
    have htpre : t <+: A := by
      rw [ht]
      have h1 : A.reverse.dropWhile isSpaceChar <:+ A.reverse := List.dropWhile_suffix _
      have h2 := (@List.reverse_prefix Char (A.reverse.dropWhile isSpaceChar)
        A.reverse).mpr h1
      rwa [List.reverse_reverse] at h2
    cases htv : t with
    | nil =>
      rw [htv] at hn
      exact Option.noConfusion hn
    | cons d tl =>
      have hdc : d = c := by
        obtain ⟨r, hr⟩ := htpre
        rw [htv, hAv, List.cons_append] at hr
        exact (List.cons.injEq d (tl ++ r) c xs ▸ hr).1
      rw [htv] at hn
      have hn2 : (if d = '-' then (parseDigits tl).map (fun m => -(m : Int))
          else if d = '+' then (parseDigits tl).map (fun m => (m : Int))
          else (parseDigits (d :: tl)).map (fun m => (m : Int))) = some n := hn
      rw [hdc] at hn2
      clear hn
      have hn := hn2
      by_cases h1 : c = '-'
      · exact Or.inr (Or.inl h1)
      · by_cases h2 : c = '+'
        · exact Or.inr (Or.inr (Or.inl h2))
        · rw [if_neg h1, if_neg h2] at hn
          refine Or.inr (Or.inr (Or.inr ?_))
          rw [parseDigits] at hn
          by_cases hall : (c :: tl).all isDigitChar = true
          · simp only [List.all_cons, Bool.and_eq_true] at hall
            exact hall.1
          · rw [if_neg (by simp), if_neg hall] at hn
            exact Option.noConfusion hn

/-- Integer-parsing strings start with no prefix whose first character is
neither whitespace, a sign, nor a digit. -/
theorem pyIntOfStr_not_startsWith {s : String} {n : Int} (hn : pyIntOfStr s = some n)
    (p : String) (c : Char) (hc : p.toList.head? = some c)
    (hbad : isSpaceChar c = false) (h1 : c ≠ '-') (h2 : c ≠ '+')
    (h3 : isDigitChar c = false) : pyStartsWith s p = false := by
  by_contra hcon
  rw [Bool.not_eq_false, pyStartsWith, List.isPrefixOf_iff_prefix] at hcon
  have hsc : s.toList.head? = some c := by
    obtain ⟨r, hr⟩ := hcon
    cases hl : p.toList with
    | nil => rw [hl] at hc; exact Option.noConfusion hc
    | cons a as =>
      rw [hl] at hc
      simp only [List.head?_cons, Option.some.injEq] at hc
      rw [hl, List.cons_append] at hr
      rw [← hr, List.head?_cons, hc]
  rcases pyIntOfStr_head_constraint hn hsc with h | h | h | h
  · rw [hbad] at h; exact Bool.noConfusion h
  · exact h1 h
  · exact h2 h
  · rw [h3] at h; exact Bool.noConfusion h

/-! ## Lemmas about query-reference resolution -/

theorem getQueryIdOfStr_api (tail : String)
    (hno : findSplit apiQueryUrlPre.toList tail.toList = none) :
    getQueryIdOfStr (apiQueryUrlPre ++ tail) =
      (match pyIntOfStr (firstSeg tail) with
       | some n => .ok n
       | none => .error ("invalid query id: " ++ firstSeg tail)) := by
  have hstart : pyStartsWith (apiQueryUrlPre ++ tail) apiQueryUrlPre = true := by
    rw [pyStartsWith, toList_append]
    exact isPrefixOf_self_append _ _
  rw [getQueryIdOfStr, if_pos hstart,
    pySplit_prefix_append apiQueryUrlPre tail (by decide) hno]
  rfl

theorem getQueryIdOfStr_web (tail : String)
    (hno : findSplit webQueryUrlPre.toList tail.toList = none) :
    getQueryIdOfStr (webQueryUrlPre ++ tail) =
      (match pyIntOfStr (firstSeg tail) with
       | some n => .ok n
       | none => .error ("invalid query id: " ++ firstSeg tail)) := by
  have hnapi : pyStartsWith (webQueryUrlPre ++ tail) apiQueryUrlPre = false := by
    rw [pyStartsWith, toList_append]
    exact isPrefixOf_append_false _ (by decide) (by decide)
  have hweb : pyStartsWith (webQueryUrlPre ++ tail) "https://dune.com/queries" = true := by
    rw [pyStartsWith, toList_append]
    exact isPrefixOf_append_of_prefix _ (by decide)
  rw [getQueryIdOfStr, if_neg (by rw [hnapi]; simp), if_pos hweb,
    pySplit_prefix_append webQueryUrlPre tail (by decide) hno]
  rfl

theorem isSqlStr_append_https (pre tail : String)
    (h : ("https://".toList).isPrefixOf pre.toList = true) :
    isSqlStr (pre ++ tail) = false := by
  have h1 : pyStartsWith (pre ++ tail) "https://" = true := by
    rw [pyStartsWith, toList_append]
    exact isPrefixOf_append_of_prefix _ h
  rw [isSqlStr, if_pos (by rw [h1]; simp)]

theorem determineInputType_raw_sql (s : String) (p : Option (List (String × Prim)))
    (hne : s ≠ "") (h1 : pyStartsWith s "https://" = false)
    (h2 : pyStartsWith s "api.dune.com" = false) (h3 : pyIntOfStr s = none) :
    determineInputType (.strQ s) p =
      .ok ⟨some rawSqlQueryId, none, some [("query", .pStr s)]⟩ := by
  have hsql : isSqlStr s = true := by
    rw [isSqlStr, if_neg (by rw [h1, h2]; simp), h3]
    rfl
  simp only [determineInputType]
  rw [if_neg hne, if_pos hsql]

theorem determineInputType_int_string (s : String) (n : Int)
    (p : Option (List (String × Prim))) (hn : pyIntOfStr s = some n) :
    determineInputType (.strQ s) p = .ok ⟨some n, none, p⟩ := by
  have hne : s ≠ "" := by
    intro hc
    rw [hc] at hn
    exact Option.noConfusion ((by decide : pyIntOfStr "" = none) ▸ hn)
  have hh : pyStartsWith s "https://" = false :=
    pyIntOfStr_not_startsWith hn "https://" 'h' (by decide) (by decide) (by decide)
      (by decide) (by decide)
  have ha : pyStartsWith s "api.dune.com" = false :=
    pyIntOfStr_not_startsWith hn "api.dune.com" 'a' (by decide) (by decide) (by decide)
      (by decide) (by decide)
  have hapi : pyStartsWith s apiQueryUrlPre = false :=
    pyIntOfStr_not_startsWith hn apiQueryUrlPre 'h' (by decide) (by decide) (by decide)
      (by decide) (by decide)
  have hwebp : pyStartsWith s "https://dune.com/queries" = false :=
    pyIntOfStr_not_startsWith hn "https://dune.com/queries" 'h' (by decide) (by decide)
      (by decide) (by decide) (by decide)
  have hsql : isSqlStr s = false := by
    rw [isSqlStr, if_neg (by rw [hh, ha]; simp), hn]
    rfl
  have hqid : getQueryIdOfStr s = .ok n := by
    rw [getQueryIdOfStr, if_neg (by rw [hapi]; simp), if_neg (by rw [hwebp]; simp), hn]
  simp only [determineInputType]
  rw [if_neg hne, hsql, hqid]
  rfl

theorem determineInputType_url (tail : String) (n : Int)
    (p : Option (List (String × Prim)))
    (hna : findSplit apiQueryUrlPre.toList tail.toList = none)
    (hnw : findSplit webQueryUrlPre.toList tail.toList = none)
    (hn : pyIntOfStr (firstSeg tail) = some n) :
    determineInputType (.strQ (apiQueryUrlPre ++ tail)) p = .ok ⟨some n, none, p⟩ ∧
    determineInputType (.strQ (webQueryUrlPre ++ tail)) p = .ok ⟨some n, none, p⟩ := by
  constructor
  · have hne := ne_empty_of_prefix_ne apiQueryUrlPre tail (by decide)
    have hsql := isSqlStr_append_https apiQueryUrlPre tail (by decide)
    have hqid := getQueryIdOfStr_api tail hna
    rw [hn] at hqid
    simp only [determineInputType]
    rw [if_neg hne, hsql, hqid]
    rfl
  · have hne := ne_empty_of_prefix_ne webQueryUrlPre tail (by decide)
    have hsql := isSqlStr_append_https webQueryUrlPre tail (by decide)
    have hqid := getQueryIdOfStr_web tail hnw
    rw [hn] at hqid
    simp only [determineInputType]
    rw [if_neg hne, hsql, hqid]
    rfl

/-- C3: query-reference resolution classifies every input as the source
does: the empty string fails; an integer or an integer string yields that
query id with no execution; the canonical API URL and the web URL with the
same tail extract the same integer query id; any other string that starts
with no URL prefix and does not parse as an integer is raw SQL, mapped to
the fixed sentinel query id with the original text as the synthetic
`query` parameter; a dict carrying an `execution_id` is an existing
execution with no query id; any other value fails. -/
theorem determine_input_classification :
    (∀ p, determineInputType (.strQ "") p = .error "empty query") ∧
    (∀ n p, determineInputType (.intQ n) p = .ok ⟨some n, none, p⟩) ∧
    (∀ s n p, pyIntOfStr s = some n →
      determineInputType (.strQ s) p = .ok ⟨some n, none, p⟩) ∧
    (∀ tail n p,
      findSplit apiQueryUrlPre.toList tail.toList = none →
      findSplit webQueryUrlPre.toList tail.toList = none →
      pyIntOfStr (firstSeg tail) = some n →
      determineInputType (.strQ (apiQueryUrlPre ++ tail)) p = .ok ⟨some n, none, p⟩ ∧
      determineInputType (.strQ (webQueryUrlPre ++ tail)) p = .ok ⟨some n, none, p⟩) ∧
    (∀ s p, s ≠ "" → pyStartsWith s "https://" = false →
      pyStartsWith s "api.dune.com" = false → pyIntOfStr s = none →
      determineInputType (.strQ s) p =
        .ok ⟨some rawSqlQueryId, none, some [("query", .pStr s)]⟩) ∧
    (∀ e p, determineInputType (.execQ e) p = .ok ⟨none, some e, p⟩) ∧
    (∀ p, determineInputType .otherQ p =
      .error "input must be a query id, query url, or execution id") := by
  refine ⟨fun p => rfl, fun n p => rfl, ?_, ?_, ?_, fun e p => rfl, fun p => rfl⟩
  · exact fun s n p hn => determineInputType_int_string s n p hn
  · exact fun tail n p hna hnw hn => determineInputType_url tail n p hna hnw hn
  · exact fun s p hne h1 h2 h3 => determineInputType_raw_sql s p hne h1 h2 h3

/-- Concrete instances of C3: the canonical and web URLs for the same id
resolve to that id. -/
theorem determine_input_classification_witness :
    determineInputType (.strQ "https://api.dune.com/api/v1/query/4388") none =
      .ok ⟨some 4388, none, none⟩ ∧
    determineInputType (.strQ "https://dune.com/queries/4388") none =
      .ok ⟨some 4388, none, none⟩ :=
  determine_input_classification.2.2.2.1 "4388" 4388 none (by decide) (by decide) (by decide)

/-- C10: for a raw-SQL string the caller-supplied parameters are replaced
entirely with the synthetic `query` parameter, so two calls with different
caller parameters resolve identically. -/
theorem raw_sql_replaces_parameters (s : String) (p₁ p₂ : Option (List (String × Prim)))
    (hne : s ≠ "") (h1 : pyStartsWith s "https://" = false)
    (h2 : pyStartsWith s "api.dune.com" = false) (h3 : pyIntOfStr s = none) :
    determineInputType (.strQ s) p₁ =
      .ok ⟨some rawSqlQueryId, none, some [("query", .pStr s)]⟩ ∧
    determineInputType (.strQ s) p₁ = determineInputType (.strQ s) p₂ := by
  have e1 := determineInputType_raw_sql s p₁ hne h1 h2 h3
  have e2 := determineInputType_raw_sql s p₂ hne h1 h2 h3
  exact ⟨e1, by rw [e1, e2]⟩

/-- Concrete instance of C10: a SQL text with caller parameters discards
them in favour of the synthetic `query` parameter. -/
theorem raw_sql_replaces_parameters_witness :
    determineInputType (.strQ "SELECT 1") (some [("x", .pInt 1)]) =
      .ok ⟨some rawSqlQueryId, none, some [("query", .pStr "SELECT 1")]⟩ ∧
    determineInputType (.strQ "SELECT 1") (some [("x", .pInt 1)]) =
      determineInputType (.strQ "SELECT 1") none :=
  raw_sql_replaces_parameters "SELECT 1" (some [("x", .pInt 1)]) none (by decide)
    (by decide) (by decide) (by decide)

/-! ## C9: cache writes demand a start timestamp -/

/-- C9: cache-key derivation — and through it every cache read and every
cache write — fails with the missing-timestamp error exactly when the
execution's start timestamp is absent, and succeeds otherwise. -/
theorem cache_requires_timestamp (h : String → String) (e : Execution) (ek : ExecuteKwargs)
    (rk : RetrievalKwargs) (cd : Option String) :
    (buildCachePath h e ek rk cd = .error "need completion timestamp on execution" ↔
      e.timestamp = none) ∧
    (∀ ts, e.timestamp = some ts → ∃ path, buildCachePath h e ek rk cd = .ok path) ∧
    (∀ fs, (∃ msg, loadFromCache h (some e) fs ek rk cd = .error msg) ↔ e.timestamp = none) ∧
    (∀ df, (∃ msg, saveToCache h df e ek rk cd = .error msg) ↔ e.timestamp = none) := by
  refine ⟨?_, ?_, ?_, ?_⟩
  · cases hts : e.timestamp with
    | none => simp [buildCachePath, hts]
    | some ts => simp [buildCachePath, hts]
  · intro ts hts
    exact ⟨_, by rw [buildCachePath, hts]⟩
  · intro fs
    cases hts : e.timestamp with
    | none => simp [loadFromCache, buildCachePath, hts]
    | some ts =>
      simp only [loadFromCache, buildCachePath, hts]
      constructor
      · rintro ⟨msg, hmsg⟩
        cases hfs : fs ((cd.getD "/tmp/dune_spice") ++ "/" ++ pyStrOptInt ek.query_id ++ "__" ++
            e.execution_id ++ "__" ++
            ((h (serHashParams (buildHashParams e ek rk))).toList.take 16).asString ++ "__" ++
            toString ts ++ ".parquet") with
        | none => rw [hfs] at hmsg; exact Except.noConfusion hmsg
        | some t => rw [hfs] at hmsg; exact Except.noConfusion hmsg
      · intro hc
        exact Option.noConfusion hc
  · intro df
    cases hts : e.timestamp with
    | none => simp [saveToCache, buildCachePath, hts]
    | some ts => simp [saveToCache, buildCachePath, hts]

/-- Concrete instance of C9: an execution without a timestamp fails cache
key derivation, one with a timestamp succeeds. -/
theorem cache_requires_timestamp_witness :
    (buildCachePath id ⟨"01HV", none⟩ ⟨some 1, none, none, "medium"⟩
      ⟨none, none, none, none, none, none, none, none, false⟩ none =
        .error "need completion timestamp on execution" ↔ (⟨"01HV", none⟩ : Execution).timestamp = none) ∧
    (∀ ts, (⟨"01HV", none⟩ : Execution).timestamp = some ts → ∃ path,
      buildCachePath id ⟨"01HV", none⟩ ⟨some 1, none, none, "medium"⟩
        ⟨none, none, none, none, none, none, none, none, false⟩ none = .ok path) :=
  ⟨(cache_requires_timestamp id ⟨"01HV", none⟩ ⟨some 1, none, none, "medium"⟩
      ⟨none, none, none, none, none, none, none, none, false⟩ none).1,
   (cache_requires_timestamp id ⟨"01HV", none⟩ ⟨some 1, none, none, "medium"⟩
      ⟨none, none, none, none, none, none, none, none, false⟩ none).2.1⟩

/-! ## C4: the latest-execution lookup -/

/-- C4 (code behaviour at the failing input): the lookup requests the JSON
results endpoint with `limit=0`; a no-execution error returns `none`; an
unfinished execution with `allow_unfinished = false` returns `none`; but on
an HTTP 429 error response the lookup performs one backoff sleep and then
raises the error — the second, successful response of the trace is never
consumed, because the `while True:` body ends in an unconditional raise
instead of retrying. -/
theorem latest_execution_rate_limit_behavior :
    latestExecUrl 4388 none = "https://api.dune.com/api/v1/query/4388/results?limit=0" ∧
    latestExecUrl 4388 (some [("a", .pStr "x")]) =
      "https://api.dune.com/api/v1/query/4388/results?limit=0&params.a=x" ∧
    getLatestExecution false (fun _ => (3 : ℚ) / 2) [.errB 404 noExecutionMsg] =
      ⟨.ok none, []⟩ ∧
    getLatestExecution false (fun _ => (3 : ℚ) / 2) [.okB false "01HV" none] =
      ⟨.ok none, []⟩ ∧
    getLatestExecution false (fun _ => (3 : ℚ) / 2)
      [.errB 429 "too many requests",
       .okB true "01HV" (some "2024-01-15T12:30:45.000000Z")] =
      ⟨.error "too many requests", [3 / 2]⟩ ∧
    getLatestExecution true (fun _ => (3 : ℚ) / 2)
      [.okB true "01HV" (some "2024-01-15T12:30:45.000000Z")] =
      ⟨.ok (some ⟨"01HV", some 1705321845⟩), []⟩ := by
  refine ⟨by decide, by decide, by decide, by decide, ?_, by decide⟩
  show (⟨.error "too many requests", [1 * ((3 : ℚ) / 2)]⟩ : LatestRun) = _
  norm_num

/-! ## C1: pagination -/

theorem gatherPages_spec {α : Type} (l : Nat) :
    ∀ (chain : List (Page α)) (acc : Nat) (nxt : Bool),
      ∃ k, k ≤ chain.length ∧
        gatherPages l chain acc nxt = (chain.take k).map Page.rows ∧
        (∀ j < k, flagAt nxt chain j = true ∧ accAt acc chain j < l) ∧
        (k < chain.length → ¬(flagAt nxt chain k = true ∧ accAt acc chain k < l)) := by
  intro chain
  induction chain with
  | nil =>
    intro acc nxt
    refine ⟨0, Nat.le_refl 0, ?_, ?_, ?_⟩
    · rw [gatherPages]
      rfl
    · intro j hj; omega
    · intro hk
      exact absurd hk (by simp)
  | cons p rest ih =>
    intro acc nxt
    by_cases hc : (nxt && decide (acc < l)) = true
    · obtain ⟨k, hk, hg, hcont, hstop⟩ := ih (acc + p.rows.length) p.next
      refine ⟨k + 1, by simpa using hk, ?_, ?_, ?_⟩
      · rw [gatherPages, if_pos hc, hg]
        rfl
      · intro j hj
        cases j with
        | zero =>
          simp only [Bool.and_eq_true, decide_eq_true_eq] at hc
          exact ⟨hc.1, hc.2⟩
        | succ i =>
          have := hcont i (by omega)
          exact ⟨this.1, this.2⟩
      · intro hlt
        have := hstop (by simpa using hlt)
        exact this
    · refine ⟨0, by simp, ?_, ?_, ?_⟩
      · rw [gatherPages, if_neg hc]
        rfl
      · intro j hj; omega
      · intro _
        rw [Bool.and_eq_true, decide_eq_true_eq] at hc
        intro hcon
        exact hc ⟨hcon.1, hcon.2⟩

theorem accAt_eq {α : Type} :
    ∀ (chain : List (Page α)) (k acc : Nat), k ≤ chain.length →
      accAt acc chain k = acc + (((chain.take k).map Page.rows).map List.length).sum := by
  intro chain
  induction chain with
  | nil =>
    intro k acc hk
    have hk0 : k = 0 := by simpa using hk
    subst hk0
    simp [accAt]
  | cons p rest ih =>
    intro k acc hk
    cases k with
    | zero => simp [accAt]
    | succ i =>
      rw [accAt, ih i (acc + p.rows.length) (by simpa using hk)]
      simp [List.take_succ_cons]
      all_goals omega

/-- C1: with a requested row limit `l`, `_get_results` consumes exactly
the prefix of the continuation chain whose every step still carried the
continuation header with fewer than `l` rows accumulated, appends those
pages in cursor order after the first page, and returns the concatenation
truncated to `l` rows — exactly `l` rows whenever at least `l` rows were
gathered. -/
theorem pagination_follows_cursor_until_limit {α : Type} (l : Nat) (first : Page α)
    (chain : List (Page α)) :
    ∃ k, k ≤ chain.length ∧
      getResultsPaged (some l) first chain =
        ((first.rows :: (chain.take k).map Page.rows).flatten).take l ∧
      (∀ j < k, flagAt first.next chain j = true ∧ accAt first.rows.length chain j < l) ∧
      (k < chain.length →
        ¬(flagAt first.next chain k = true ∧ accAt first.rows.length chain k < l)) ∧
      (getResultsPaged (some l) first chain).length =
        min l (accAt first.rows.length chain k) := by
  obtain ⟨k, hk, hg, hcont, hstop⟩ :=
    gatherPages_spec l chain first.rows.length first.next
  refine ⟨k, hk, ?_, hcont, hstop, ?_⟩
  · rw [getResultsPaged, hg]
  · rw [getResultsPaged, hg, List.length_take, List.length_flatten,
      accAt_eq chain k first.rows.length hk]
    simp [Nat.min_def]

/-! ## C5 and C6: the completion poller -/

theorem pollLoop_cons_finished (execution_id : String) (poll_interval : ℚ)
    (factors elapsed : Nat → ℚ) (state : String) (started_at : Option String)
    (rest : List PollResp) (b : ℚ) (fi ei : Nat) :
    pollLoop execution_id poll_interval factors elapsed
        (.statusR true state started_at :: rest) b fi ei =
      if state = "QUERY_STATE_FAILED" then ⟨.failed execution_id, [], []⟩
      else
        match started_at with
        | none => ⟨.err "execution_started_at missing from status", [], []⟩
        | some s =>
          match parse_timestamp s with
          | .error e => ⟨.err e, [], []⟩
          | .ok t => ⟨.done ⟨execution_id, some t⟩, [], []⟩ := rfl

theorem pollLoop_rlSleeps_chain (execution_id : String) (poll_interval : ℚ)
    (factors elapsed : Nat → ℚ) (hf : ∀ m, 1 ≤ factors m ∧ factors m ≤ 2) :
    ∀ (resps : List PollResp) (b : ℚ) (fi ei : Nat), 0 ≤ b →
      List.Chain' (· ≤ ·)
        (b :: (pollLoop execution_id poll_interval factors elapsed resps b fi ei).rlSleeps) := by
  intro resps
  induction resps with
  | nil =>
    intro b fi ei hb
    simp [pollLoop]
  | cons r rest ih =>
    intro b fi ei hb
    cases r with
    | rateLimited =>
      rw [pollLoop]
      have hf1 := (hf fi).1
      have hb' : 0 ≤ b * factors fi := mul_nonneg hb (le_trans zero_le_one hf1)
      have hmono : b ≤ b * factors fi := le_mul_of_one_le_right hb hf1
      have hchain := ih (b * factors fi) (fi + 1) ei hb'
      exact List.chain'_cons.mpr ⟨hmono, hchain⟩
    | statusR finished state started_at =>
      cases finished with
      | true =>
        rw [pollLoop_cons_finished]
        by_cases hs : state = "QUERY_STATE_FAILED"
        · rw [if_pos hs]
          simp
        · rw [if_neg hs]
          cases started_at with
          | none => simp
          | some s =>
            cases hp : parse_timestamp s with
            | error e => simp [hp]
            | ok t => simp [hp]
      | false =>
        rw [pollLoop]
        by_cases hw : elapsed ei < poll_interval
        · rw [if_pos hw]
          exact ih b fi (ei + 1) hb
        · rw [if_neg hw]
          exact ih b fi (ei + 1) hb

theorem pollLoop_exits_on_finished (execution_id : String) (poll_interval : ℚ)
    (factors elapsed : Nat → ℚ) :
    ∀ (resps : List PollResp) (b : ℚ) (fi ei : Nat),
      (∃ r ∈ resps, isFinishedResp r = true) →
      (pollLoop execution_id poll_interval factors elapsed resps b fi ei).outcome ≠
        .exhausted := by
  intro resps
  induction resps with
  | nil =>
    intro b fi ei h
    obtain ⟨r, hr, -⟩ := h
    exact absurd hr (List.not_mem_nil r)
  | cons r rest ih =>
    intro b fi ei h
    cases r with
    | rateLimited =>
      rw [pollLoop]
      apply ih
      obtain ⟨r', hr', hfin⟩ := h
      cases hr' with
      | head => exact absurd hfin (by simp [isFinishedResp])
      | tail _ hmem => exact ⟨r', hmem, hfin⟩
    | statusR finished state started_at =>
      cases finished with
      | true =>
        rw [pollLoop_cons_finished]
        by_cases hs : state = "QUERY_STATE_FAILED"
        · rw [if_pos hs]; simp
        · rw [if_neg hs]
          cases started_at with
          | none => simp
          | some s =>
            cases hp : parse_timestamp s with
            | error e => simp [hp]
            | ok t => simp [hp]
      | false =>
        rw [pollLoop]
        have hrest : ∃ r' ∈ rest, isFinishedResp r' = true := by
          obtain ⟨r', hr', hfin⟩ := h
          cases hr' with
          | head => exact absurd hfin (by simp [isFinishedResp])
          | tail _ hmem => exact ⟨r', hmem, hfin⟩
        by_cases hw : elapsed ei < poll_interval
        · rw [if_pos hw]
          exact ih b fi (ei + 1) hrest
        · rw [if_neg hw]
          exact ih b fi (ei + 1) hrest

/-- C5: in the completion poller the backoff is seeded at the poll
interval and multiplied by the drawn factor on each 429 before sleeping:
whenever every random factor lies in `[1, 2]`, the sequence of
rate-limited sleep durations is non-decreasing from the poll interval
upward, and the loop exits once a response reporting the execution
finished is supplied. -/
theorem poll_backoff_monotone_and_exits (e : Execution) (poll_interval : ℚ)
    (factors elapsed : Nat → ℚ) (resps : List PollResp)
    (hI : 0 ≤ poll_interval) (hf : ∀ m, 1 ≤ factors m ∧ factors m ≤ 2) :
    List.Chain' (· ≤ ·)
      (poll_interval :: (pollExecution e poll_interval factors elapsed resps).rlSleeps) ∧
    ((∃ r ∈ resps, isFinishedResp r = true) →
      (pollExecution e poll_interval factors elapsed resps).outcome ≠ .exhausted) :=
  ⟨pollLoop_rlSleeps_chain e.execution_id poll_interval factors elapsed hf resps
      poll_interval 0 0 hI,
   fun h => pollLoop_exits_on_finished e.execution_id poll_interval factors elapsed resps
      poll_interval 0 0 h⟩

/-- Concrete instance of C5: two 429 responses followed by a successful
finish give non-decreasing backoff sleeps and a terminating loop. -/
theorem poll_backoff_monotone_witness :
    List.Chain' (· ≤ ·)
      (1 :: (pollExecution ⟨"01HV", none⟩ 1 (fun _ => 3 / 2) (fun _ => 0)
        [.rateLimited, .rateLimited,
         .statusR true "QUERY_STATE_COMPLETED" (some "2024-01-15T12:30:45.000000Z")]).rlSleeps) ∧
    ((∃ r ∈ [PollResp.rateLimited, PollResp.rateLimited,
        PollResp.statusR true "QUERY_STATE_COMPLETED" (some "2024-01-15T12:30:45.000000Z")],
        isFinishedResp r = true) →
      (pollExecution ⟨"01HV", none⟩ 1 (fun _ => 3 / 2) (fun _ => 0)
        [.rateLimited, .rateLimited,
         .statusR true "QUERY_STATE_COMPLETED" (some "2024-01-15T12:30:45.000000Z")]).outcome ≠
        .exhausted) :=
  poll_backoff_monotone_and_exits ⟨"01HV", none⟩ 1 (fun _ => 3 / 2) (fun _ => 0)
    [.rateLimited, .rateLimited,
     .statusR true "QUERY_STATE_COMPLETED" (some "2024-01-15T12:30:45.000000Z")]
    (by norm_num) (fun m => by norm_num)

theorem pollLoop_terminal (execution_id : String) (poll_interval : ℚ)
    (factors elapsed : Nat → ℚ) :
    ∀ (resps : List PollResp) (b : ℚ) (fi ei : Nat),
      (resps.find? isFinishedResp = none →
        (pollLoop execution_id poll_interval factors elapsed resps b fi ei).outcome =
          .exhausted) ∧
      (∀ st sa, resps.find? isFinishedResp = some (.statusR true st sa) →
        ((st = "QUERY_STATE_FAILED" →
          (pollLoop execution_id poll_interval factors elapsed resps b fi ei).outcome =
            .failed execution_id) ∧
         (st ≠ "QUERY_STATE_FAILED" → ∀ s t, sa = some s → parse_timestamp s = .ok t →
          (pollLoop execution_id poll_interval factors elapsed resps b fi ei).outcome =
            .done ⟨execution_id, some t⟩))) := by
  intro resps
  induction resps with
  | nil =>
    intro b fi ei
    refine ⟨fun _ => rfl, fun st sa h => ?_⟩
    rw [List.find?_nil] at h
    exact Option.noConfusion h
  | cons r rest ih =>
    intro b fi ei
    cases r with
    | rateLimited =>
      have hnf : isFinishedResp .rateLimited = false := rfl
      rw [pollLoop]
      constructor
      · intro h
        rw [List.find?_cons_of_neg _ (by simp [hnf])] at h
        exact (ih (b * factors fi) (fi + 1) ei).1 h
      · intro st sa h
        rw [List.find?_cons_of_neg _ (by simp [hnf])] at h
        exact (ih (b * factors fi) (fi + 1) ei).2 st sa h
    | statusR finished state started_at =>
      cases finished with
      | true =>
        have hfin : isFinishedResp (.statusR true state started_at) = true := rfl
        constructor
        · intro h
          rw [List.find?_cons_of_pos _ hfin] at h
          exact Option.noConfusion h
        · intro st sa h
          rw [List.find?_cons_of_pos _ hfin] at h
          simp only [Option.some.injEq] at h
          injection h with h1 h2 h3
          subst h2
          subst h3
          constructor
          · intro hs
            rw [pollLoop_cons_finished, if_pos hs]
          · intro hs s t hsa hp
            subst hsa
            rw [pollLoop_cons_finished, if_neg hs]
            simp [hp]
      | false =>
        have hnf : isFinishedResp (.statusR false state started_at) = false := rfl
        have houtcome :
            (pollLoop execution_id poll_interval factors elapsed
              (.statusR false state started_at :: rest) b fi ei).outcome =
            (pollLoop execution_id poll_interval factors elapsed rest b fi (ei + 1)).outcome := by
          rw [pollLoop]
          by_cases hw : elapsed ei < poll_interval
          · rw [if_pos hw]
          · rw [if_neg hw]
        constructor
        · intro h
          rw [List.find?_cons_of_neg _ (by simp [hnf])] at h
          rw [houtcome]
          exact (ih b fi (ei + 1)).1 h
        · intro st sa h
          rw [List.find?_cons_of_neg _ (by simp [hnf])] at h
          have := (ih b fi (ei + 1)).2 st sa h
          exact ⟨fun hs => by rw [houtcome]; exact this.1 hs,
                 fun hs s t hsa hp => by rw [houtcome]; exact this.2 hs s t hsa hp⟩

/-- C6: the poller's only terminations are the terminal states of the
first finished status payload: a failed state raises the failure carrying
the execution id; a successful finish populates the execution's start
timestamp from the payload's `execution_started_at` field and returns;
without any finished payload the loop never terminates (the finite trace
is exhausted). -/
theorem poll_terminal_behavior (e : Execution) (poll_interval : ℚ)
    (factors elapsed : Nat → ℚ) (resps : List PollResp) :
    (resps.find? isFinishedResp = none →
      (pollExecution e poll_interval factors elapsed resps).outcome = .exhausted) ∧
    (∀ st sa, resps.find? isFinishedResp = some (.statusR true st sa) →
      ((st = "QUERY_STATE_FAILED" →
        (pollExecution e poll_interval factors elapsed resps).outcome =
          .failed e.execution_id) ∧
       (st ≠ "QUERY_STATE_FAILED" → ∀ s t, sa = some s → parse_timestamp s = .ok t →
        (pollExecution e poll_interval factors elapsed resps).outcome =
          .done ⟨e.execution_id, some t⟩))) :=
  pollLoop_terminal e.execution_id poll_interval factors elapsed resps poll_interval 0 0

/-- Concrete instance of C6: a failed execution raises; a successful one
returns with the parsed start timestamp populated. -/
theorem poll_terminal_behavior_witness :
    (pollExecution ⟨"01HV", none⟩ 1 (fun _ => 3 / 2) (fun _ => 0)
      [.statusR false "QUERY_STATE_EXECUTING" none,
       .statusR true "QUERY_STATE_FAILED" none]).outcome = .failed "01HV" ∧
    (pollExecution ⟨"01HV", none⟩ 1 (fun _ => 3 / 2) (fun _ => 0)
      [.statusR true "QUERY_STATE_COMPLETED" (some "2024-01-15T12:30:45.000000Z")]).outcome =
      .done ⟨"01HV", some 1705321845⟩ :=
  ⟨((poll_terminal_behavior ⟨"01HV", none⟩ 1 (fun _ => 3 / 2) (fun _ => 0)
      [.statusR false "QUERY_STATE_EXECUTING" none,
       .statusR true "QUERY_STATE_FAILED" none]).2 "QUERY_STATE_FAILED" none
      (by decide)).1 rfl,
   ((poll_terminal_behavior ⟨"01HV", none⟩ 1 (fun _ => 3 / 2) (fun _ => 0)
      [.statusR true "QUERY_STATE_COMPLETED" (some "2024-01-15T12:30:45.000000Z")]).2
      "QUERY_STATE_COMPLETED" (some "2024-01-15T12:30:45.000000Z")
      (by decide)).2 (by decide) "2024-01-15T12:30:45.000000Z" 1705321845 rfl (by decide)⟩

/-! ## C2: cache-key determinism and sensitivity -/

theorem lexLeB_total : ∀ a b : List Char, lexLeB a b = true ∨ lexLeB b a = true := by
  intro a
  induction a with
  | nil => intro b; left; rfl
  | cons x xs ih =>
    intro b
    cases b with
    | nil => right; rfl
    | cons y ys =>
      rw [lexLeB, lexLeB]
      by_cases h1 : x.toNat < y.toNat
      · left; rw [if_pos h1]
      · by_cases h2 : y.toNat < x.toNat
        · right; rw [if_pos h2]
        · rw [if_neg h1, if_neg h2, if_neg h2, if_neg h1]
          exact ih ys

theorem lexLeB_trans : ∀ a b c : List Char,
    lexLeB a b = true → lexLeB b c = true → lexLeB a c = true := by
  intro a
  induction a with
  | nil => intro b c _ _; rfl
  | cons x xs ih =>
    intro b c hab hbc
    cases b with
    | nil => exact absurd hab (by rw [lexLeB]; simp)
    | cons y ys =>
      cases c with
      | nil => exact absurd hbc (by rw [lexLeB]; simp)
      | cons z zs =>
        rw [lexLeB] at hab hbc ⊢
        by_cases hxy : x.toNat < y.toNat
        · by_cases hyz : y.toNat < z.toNat
          · rw [if_pos (by omega : x.toNat < z.toNat)]
          · by_cases hzy : z.toNat < y.toNat
            · rw [if_neg hyz, if_pos hzy] at hbc
              exact Bool.noConfusion hbc
            · have : y.toNat = z.toNat := by omega
              rw [if_pos (by omega : x.toNat < z.toNat)]
        · by_cases hyx : y.toNat < x.toNat
          · rw [if_pos hyx] at hab
            rw [if_neg hxy] at hab
            exact Bool.noConfusion hab
          · have hxyeq : x.toNat = y.toNat := by omega
            by_cases hyz : y.toNat < z.toNat
            · rw [if_pos (by omega : x.toNat < z.toNat)]
            · by_cases hzy : z.toNat < y.toNat
              · rw [if_neg hyz, if_pos hzy] at hbc
                exact Bool.noConfusion hbc
              · rw [if_neg hxy, if_neg hyx] at hab
                rw [if_neg hyz, if_neg hzy] at hbc
                rw [if_neg (by omega : ¬x.toNat < z.toNat),
                  if_neg (by omega : ¬z.toNat < x.toNat)]
                exact ih ys zs hab hbc

theorem lexLeB_antisymm : ∀ a b : List Char,
    lexLeB a b = true → lexLeB b a = true → a = b := by
  intro a
  induction a with
  | nil =>
    intro b _ hba
    cases b with
    | nil => rfl
    | cons y ys => exact absurd hba (by rw [lexLeB]; simp)
  | cons x xs ih =>
    intro b hab hba
    cases b with
    | nil => exact absurd hab (by rw [lexLeB]; simp)
    | cons y ys =>
      rw [lexLeB] at hab hba
      by_cases hxy : x.toNat < y.toNat
      · rw [if_neg (by omega), if_pos hxy] at hba
        exact Bool.noConfusion hba
      · by_cases hyx : y.toNat < x.toNat
        · rw [if_neg hxy, if_pos hyx] at hab
          exact Bool.noConfusion hab
        · have hxyeq : x.toNat = y.toNat := by omega
          have hchar : x = y := Char.ext (UInt32.ext hxyeq)
          rw [if_neg hxy, if_neg hyx] at hab
          rw [if_neg hyx, if_neg hxy] at hba
          rw [hchar, ih ys hab hba]

theorem strLeB_antisymm {a b : String} (hab : strLeB a b = true) (hba : strLeB b a = true) :
    a = b := by
  rw [← asString_toList a, ← asString_toList b,
    lexLeB_antisymm a.toList b.toList hab hba]

instance {V : Type} : IsTotal (String × V) keyLe :=
  ⟨fun a b => lexLeB_total a.1.toList b.1.toList⟩

instance {V : Type} : IsTrans (String × V) keyLe :=
  ⟨fun a b c hab hbc => lexLeB_trans a.1.toList b.1.toList c.1.toList hab hbc⟩

/-- The strict key order used to identify equal sorted association
lists. -/
def keyLt {V : Type} (a b : String × V) : Prop := keyLe a b ∧ a.1 ≠ b.1

instance {V : Type} : IsAntisymm (String × V) keyLt :=
  ⟨fun a b hab hba => absurd (strLeB_antisymm hab.1 hba.1) hab.2⟩

/-- Sorting by key maps key-wise duplicate-free permutations of an
association list to the same list: the serializer is insertion-order
independent. -/
theorem sortPairs_perm_eq {V : Type} {l₁ l₂ : List (String × V)} (hp : l₁.Perm l₂)
    (hnd : (l₁.map Prod.fst).Nodup) : sortPairs l₁ = sortPairs l₂ := by
  have hnd₂ : (l₂.map Prod.fst).Nodup := ((hp.map Prod.fst).nodup_iff).mp hnd
  have hperm : (sortPairs l₁).Perm (sortPairs l₂) :=
    ((List.perm_insertionSort keyLe l₁).trans hp).trans
      (List.perm_insertionSort keyLe l₂).symm
  have hkey : ∀ (l : List (String × V)), (l.map Prod.fst).Nodup →
      List.Sorted keyLt (sortPairs l) := by
    intro l hl
    have hs : List.Sorted keyLe (sortPairs l) := List.sorted_insertionSort keyLe l
    have hn : ((sortPairs l).map Prod.fst).Nodup :=
      ((List.perm_insertionSort keyLe l).map Prod.fst).nodup_iff.mpr hl
    rw [List.Nodup, List.pairwise_map] at hn
    exact (List.Pairwise.and hs hn : _)
  exact List.eq_of_perm_of_sorted hperm (hkey l₁ hnd) (hkey l₂ hnd₂)

/-- An empty retrieval-parameter set. -/
def rkNone : RetrievalKwargs := ⟨none, none, none, none, none, none, none, none, false⟩

/-- A base execute-parameter set. -/
def ekBase : ExecuteKwargs := ⟨some 1, none, none, "medium"⟩

/-- A started execution used in concrete cache-key instances. -/
def execA : Execution := ⟨"01HV", some 1700000000⟩

/-- Retrieval parameters with a dict-valued `types` override in one
insertion order. -/
def rkTypesAB : RetrievalKwargs :=
  { rkNone with types := some (.dictT [("a", some .tInt64), ("b", some .tStr)]) }

/-- The same `types` mapping in the opposite insertion order. -/
def rkTypesBA : RetrievalKwargs :=
  { rkNone with types := some (.dictT [("b", some .tStr), ("a", some .tInt64)]) }

set_option maxRecDepth 8192

/-- C2 as stated is false: a dict-valued type override is pre-serialized
into an order-preserving list of `[name, str(type)]` pairs, so the same
mapping given in two insertion orders yields two different `hash_params`
values and two different serialized hash inputs — and any digest that
separates the two serialized inputs (as MD5 does) yields two different
cache paths. -/
theorem cache_key_types_order_counterexample :
    buildHashParams execA ekBase rkTypesAB ≠ buildHashParams execA ekBase rkTypesBA ∧
    serHashParams (buildHashParams execA ekBase rkTypesAB) ≠
      serHashParams (buildHashParams execA ekBase rkTypesBA) ∧
    (∃ h : String → String,
      buildCachePath h execA ekBase rkTypesAB none ≠
        buildCachePath h execA ekBase rkTypesBA none) := by
  refine ⟨by decide, by decide, ?_⟩
  refine ⟨fun s => if s = serHashParams (buildHashParams execA ekBase rkTypesAB)
    then "0000000000000000" else "1111111111111111", ?_⟩
  decide

/-- C2 (amended): the cache path is a function of the hash digest of
`{version tag, execution_id, query_id, parameters, limit, offset,
sample_count, sort_by, columns, extras, pre-serialized types and
all_types}` together with the execution timestamp and cache directory:
credential, performance tier and verbosity do not enter it; the
mapping-valued `parameters` and `extras` are serialized with sorted keys
and hence insertion-order independent; and every listed field is a
component of the hash input, dict-valued type overrides entering as
insertion-ordered pair lists. -/
theorem cache_key_inputs_amended :
    (∀ (h : String → String) (e : Execution) (ek : ExecuteKwargs) (rk : RetrievalKwargs)
      (cd : Option String) (ak₁ ak₂ : Option String) (pf₁ pf₂ : String) (v₁ v₂ : Bool),
      buildCachePath h e { ek with api_key := ak₁, performance := pf₁ }
          { rk with verbose := v₁ } cd =
        buildCachePath h e { ek with api_key := ak₂, performance := pf₂ }
          { rk with verbose := v₂ } cd) ∧
    (∀ (h : String → String) (e : Execution) (ek : ExecuteKwargs) (rk : RetrievalKwargs)
      (cd : Option String) (ps₁ ps₂ : List (String × Prim)),
      ps₁.Perm ps₂ → (ps₁.map Prod.fst).Nodup →
      buildCachePath h e { ek with parameters := some ps₁ } rk cd =
        buildCachePath h e { ek with parameters := some ps₂ } rk cd) ∧
    (∀ (h : String → String) (e : Execution) (ek : ExecuteKwargs) (rk : RetrievalKwargs)
      (cd : Option String) (ex₁ ex₂ : List (String × Prim)),
      ex₁.Perm ex₂ → (ex₁.map Prod.fst).Nodup →
      buildCachePath h e ek { rk with extras := some ex₁ } cd =
        buildCachePath h e ek { rk with extras := some ex₂ } cd) ∧
    (∀ (e₁ e₂ : Execution) (ek₁ ek₂ : ExecuteKwargs) (rk₁ rk₂ : RetrievalKwargs),
      buildHashParams e₁ ek₁ rk₁ = buildHashParams e₂ ek₂ rk₂ →
      e₁.execution_id = e₂.execution_id ∧ ek₁.query_id = ek₂.query_id ∧
      ek₁.parameters = ek₂.parameters ∧ rk₁.limit = rk₂.limit ∧
      rk₁.offset = rk₂.offset ∧ rk₁.sample_count = rk₂.sample_count ∧
      rk₁.sort_by = rk₂.sort_by ∧ rk₁.columns = rk₂.columns ∧
      rk₁.extras = rk₂.extras ∧
      preserializeTypes rk₁.types = preserializeTypes rk₂.types ∧
      preserializeTypes rk₁.all_types = preserializeTypes rk₂.all_types) := by
  refine ⟨?_, ?_, ?_, ?_⟩
  · intro h e ek rk cd ak₁ ak₂ pf₁ pf₂ v₁ v₂
    rfl
  · intro h e ek rk cd ps₁ ps₂ hp hnd
    have hd : serPrimDict ps₁ = serPrimDict ps₂ := by
      rw [serPrimDict, serPrimDict, sortPairs_perm_eq hp hnd]
    simp only [buildCachePath, buildHashParams, serHashParams, serOpt, hd]
  · intro h e ek rk cd ex₁ ex₂ hp hnd
    have hd : serPrimDict ex₁ = serPrimDict ex₂ := by
      rw [serPrimDict, serPrimDict, sortPairs_perm_eq hp hnd]
    simp only [buildCachePath, buildHashParams, serHashParams, serOpt, hd]
  · intro e₁ e₂ ek₁ ek₂ rk₁ rk₂ h
    simp only [buildHashParams, HashParams.mk.injEq] at h
    obtain ⟨-, h2, h3, h4, h5, h6, h7, h8, h9, h10, h11, h12⟩ := h
    exact ⟨h2, h3, h4, h5, h6, h7, h8, h9, h10, h11, h12⟩

/-- Concrete instance of C2 (amended): permuting the `parameters` mapping
or changing only the credential leaves the cache path unchanged. -/
theorem cache_key_inputs_witness :
    buildCachePath id execA { ekBase with parameters := some [("a", .pInt 1), ("b", .pStr "x")] }
        rkNone none =
      buildCachePath id execA
        { ekBase with parameters := some [("b", .pStr "x"), ("a", .pInt 1)] } rkNone none ∧
    buildCachePath id execA { ekBase with api_key := some "KEY-1", performance := "medium" }
        { rkNone with verbose := true } none =
      buildCachePath id execA { ekBase with api_key := some "KEY-2", performance := "large" }
        { rkNone with verbose := false } none :=
  ⟨cache_key_inputs_amended.2.1 id execA ekBase rkNone none
      [("a", .pInt 1), ("b", .pStr "x")] [("b", .pStr "x"), ("a", .pInt 1)]
      (by decide) (by decide),
   cache_key_inputs_amended.1 id execA ekBase rkNone none
      (some "KEY-1") (some "KEY-2") "medium" "large" true false⟩

/-! ## C7 and C8: the table decoder -/

/-- The boolean decoding of one raw cell: literal equality to `"true"`,
with null propagating. -/
def boolCell (oc : Option String) : Cell :=
  match oc with
  | none => .null
  | some s => .cbool (s = "true")

theorem mapM_castCell_bool (cells : List (Option String)) :
    cells.mapM (castCell .tBool) = .ok (cells.map boolCell) := by
  induction cells with
  | nil => rfl
  | cons oc rest ih =>
    cases oc with
    | none =>
      rw [List.mapM_cons, ih]
      rfl
    | some s =>
      rw [List.mapM_cons, ih]
      rfl

theorem resolveLoop_ok_spec (eff : Option TypesSpec) :
    ∀ (cols : List RawColumn) (c0 : Nat) (stage1 : List (String × Stage1Entry)),
      resolveLoop eff cols c0 = .ok stage1 →
      stage1.length = cols.length ∧
      ∀ i col, cols[i]? = some col →
        ∃ entry, stage1[i]? = some (col.name, entry) ∧
          ((resolveType eff (c0 + i) col.name col.cells = .tDatetime →
            ∃ cl, convertDtCells col.cells = .ok cl ∧ entry = .dtDone cl) ∧
           (resolveType eff (c0 + i) col.name col.cells ≠ .tDatetime →
            entry = .pending (resolveType eff (c0 + i) col.name col.cells) col.cells)) := by
  intro cols
  induction cols with
  | nil =>
    intro c0 stage1 h
    rw [resolveLoop] at h
    simp only [Except.ok.injEq] at h
    subst h
    exact ⟨rfl, fun i col hc => by simp at hc⟩
  | cons col rest ih =>
    intro c0 stage1 h
    rw [resolveLoop] at h
    by_cases hdt : resolveType eff c0 col.name col.cells = .tDatetime
    · rw [if_pos hdt] at h
      cases hcv : convertDtCells col.cells with
      | error e => rw [hcv] at h; exact Except.noConfusion h
      | ok cl =>
        rw [hcv] at h
        cases hrl : resolveLoop eff rest (c0 + 1) with
        | error e => rw [hrl] at h; exact Except.noConfusion h
        | ok tail =>
          rw [hrl] at h
          simp only [Except.ok.injEq] at h
          subst h
          obtain ⟨hlen, hspec⟩ := ih (c0 + 1) tail hrl
          refine ⟨by simp [hlen], ?_⟩
          intro i c hc
          cases i with
          | zero =>
            simp only [List.getElem?_cons_zero, Option.some.injEq] at hc
            subst hc
            refine ⟨.dtDone cl, by simp, ?_, ?_⟩
            · intro _
              exact ⟨cl, hcv, rfl⟩
            · intro hne
              exact absurd (by simpa using hdt) hne
          | succ j =>
            simp only [List.getElem?_cons_succ] at hc
            obtain ⟨entry, he, hd, hp⟩ := hspec j c hc
            have hidx : c0 + 1 + j = c0 + (j + 1) := by omega
            rw [hidx] at hd hp
            exact ⟨entry, by simpa using he, hd, hp⟩
    · rw [if_neg hdt] at h
      cases hrl : resolveLoop eff rest (c0 + 1) with
      | error e => rw [hrl] at h; exact Except.noConfusion h
      | ok tail =>
        rw [hrl] at h
        simp only [Except.ok.injEq] at h
        subst h
        obtain ⟨hlen, hspec⟩ := ih (c0 + 1) tail hrl
        refine ⟨by simp [hlen], ?_⟩
        intro i c hc
        cases i with
        | zero =>
          simp only [List.getElem?_cons_zero, Option.some.injEq] at hc
          subst hc
          refine ⟨.pending (resolveType eff c0 col.name col.cells) col.cells, by simp, ?_, ?_⟩
          · intro hr
            exact absurd (by simpa using hr) hdt
          · intro _
            simp
        | succ j =>
          simp only [List.getElem?_cons_succ] at hc
          obtain ⟨entry, he, hd, hp⟩ := hspec j c hc
          have hidx : c0 + 1 + j = c0 + (j + 1) := by omega
          rw [hidx] at hd hp
          exact ⟨entry, by simpa using he, hd, hp⟩

theorem castLoop_ok_spec :
    ∀ (stage1 : List (String × Stage1Entry)) (out : List Column),
      castLoop stage1 = .ok out →
      out.length = stage1.length ∧
      ∀ (i : Nat) (name : String) (entry : Stage1Entry), stage1[i]? = some (name, entry) →
        ∃ col, out[i]? = some col ∧ col.name = name ∧
          (∀ cl, entry = .dtDone cl → col.dtype = .tDatetime ∧ col.cells = cl) ∧
          (∀ t cells, entry = .pending t cells → col.dtype = t ∧
            cells.mapM (castCell t) = .ok col.cells) := by
  intro stage1
  induction stage1 with
  | nil =>
    intro out h
    rw [castLoop] at h
    simp only [Except.ok.injEq] at h
    subst h
    exact ⟨rfl, fun i name entry hc => by simp at hc⟩
  | cons pr rest ih =>
    intro out h
    match pr with
    | (name, .dtDone cells) =>
      rw [castLoop] at h
      cases hcl : castLoop rest with
      | error e => rw [hcl] at h; exact Except.noConfusion h
      | ok tail =>
        rw [hcl] at h
        simp only [Except.ok.injEq] at h
        subst h
        obtain ⟨hlen, hspec⟩ := ih tail hcl
        refine ⟨by simp [hlen], ?_⟩
        intro i nm entry hc
        cases i with
        | zero =>
          simp only [List.getElem?_cons_zero, Option.some.injEq] at hc
          injection hc with h1 h2
          subst h1
          subst h2
          refine ⟨⟨name, .tDatetime, cells⟩, by simp, rfl, ?_, ?_⟩
          · intro cl hcl2
            injection hcl2 with hcl2
            subst hcl2
            exact ⟨rfl, rfl⟩
          · intro t cs hpend
            exact Stage1Entry.noConfusion hpend
        | succ j =>
          simp only [List.getElem?_cons_succ] at hc
          obtain ⟨col, hcol, hname, hdt, hpend⟩ := hspec j nm entry hc
          exact ⟨col, by simpa using hcol, hname, hdt, hpend⟩
    | (name, .pending t cells) =>
      rw [castLoop] at h
      cases hmm : cells.mapM (castCell t) with
      | error e => rw [hmm] at h; exact Except.noConfusion h
      | ok cast =>
        rw [hmm] at h
        cases hcl : castLoop rest with
        | error e => rw [hcl] at h; exact Except.noConfusion h
        | ok tail =>
          rw [hcl] at h
          simp only [Except.ok.injEq] at h
          subst h
          obtain ⟨hlen, hspec⟩ := ih tail hcl
          refine ⟨by simp [hlen], ?_⟩
          intro i nm entry hc
          cases i with
          | zero =>
            simp only [List.getElem?_cons_zero, Option.some.injEq] at hc
            injection hc with h1 h2
            subst h1
            subst h2
            refine ⟨⟨name, t, cast⟩, by simp, rfl, ?_, ?_⟩
            · intro cl hdt2
              exact Stage1Entry.noConfusion hdt2
            · intro t' cs hpend
              injection hpend with hp1 hp2
              subst hp1
              subst hp2
              exact ⟨rfl, hmm⟩
          | succ j =>
            simp only [List.getElem?_cons_succ] at hc
            obtain ⟨col, hcol, hname, hdt, hpend⟩ := hspec j nm entry hc
            exact ⟨col, by simpa using hcol, hname, hdt, hpend⟩

theorem bnot_ne_true_imp {b : Bool} (h : ¬(!b) = true) : b = true := by
  cases b with
  | false => exact absurd rfl h
  | true => rfl

theorem processRawTable_ok_elim {raw : String} {types all_types : Option TypesSpec}
    {out : List Column} (h : processRawTable raw types all_types = .ok out) :
    ¬(all_types.isSome && types.isSome) = true ∧
    ∃ stage1,
      resolveLoop (effTypes types all_types) (tableCols (readCsv raw)) 0 = .ok stage1 ∧
      dictMissingCols (effTypes types all_types) (readCsv raw).header = [] ∧
      coverMissingCols all_types (readCsv raw).header = [] ∧
      castLoop stage1 = .ok out := by
  simp only [processRawTable] at h
  by_cases hb : (all_types.isSome && types.isSome) = true
  · rw [if_pos hb] at h
    exact Except.noConfusion h
  · rw [if_neg hb] at h
    refine ⟨hb, ?_⟩
    cases hrl : resolveLoop (effTypes types all_types) (tableCols (readCsv raw)) 0 with
    | error e => rw [hrl] at h; exact Except.noConfusion h
    | ok stage1 =>
      rw [hrl] at h
      have h' :
          (if (!(dictMissingCols (effTypes types all_types) (readCsv raw).header).isEmpty) = true
            then Except.error
              (typesForMissingMsg (dictMissingCols (effTypes types all_types) (readCsv raw).header))
            else if (!(coverMissingCols all_types (readCsv raw).header).isEmpty) = true
              then Except.error
                (typesNotSpecifiedMsg (coverMissingCols all_types (readCsv raw).header))
              else castLoop stage1) = Except.ok out := h
      by_cases h1 : (!(dictMissingCols (effTypes types all_types)
          (readCsv raw).header).isEmpty) = true
      · rw [if_pos h1] at h'
        exact Except.noConfusion h'
      · rw [if_neg h1] at h'
        by_cases h2 : (!(coverMissingCols all_types (readCsv raw).header).isEmpty) = true
        · rw [if_pos h2] at h'
          exact Except.noConfusion h'
        · rw [if_neg h2] at h'
          have h1' := List.isEmpty_iff.mp (bnot_ne_true_imp h1)
          have h2' := List.isEmpty_iff.mp (bnot_ne_true_imp h2)
          exact ⟨stage1, rfl, h1', h2', h'⟩

theorem processRawTable_ok_intro {raw : String} {types all_types : Option TypesSpec}
    {stage1 : List (String × Stage1Entry)} {out : List Column}
    (hb : ¬(all_types.isSome && types.isSome) = true)
    (hrl : resolveLoop (effTypes types all_types) (tableCols (readCsv raw)) 0 = .ok stage1)
    (h1 : dictMissingCols (effTypes types all_types) (readCsv raw).header = [])
    (h2 : coverMissingCols all_types (readCsv raw).header = [])
    (hc : castLoop stage1 = .ok out) :
    processRawTable raw types all_types = .ok out := by
  simp only [processRawTable]
  rw [if_neg hb, hrl, h1, h2]
  simpa using hc

/-- C8: whenever decoding succeeds, every column whose resolved type is a
timestamp holds exactly the values of the fixed-format parse
`%Y-%m-%d %H:%M:%S%.3f %Z` of its raw text, and every column whose
resolved type is boolean holds for each cell the literal string equality
of its raw text with `"true"` (null propagating), so a cell decodes to
true iff its raw text is exactly `"true"`. -/
theorem timestamp_and_bool_decoding (raw : String) (types all_types : Option TypesSpec)
    (out : List Column) (h : processRawTable raw types all_types = .ok out) :
    ∀ (i : Nat) (rcol : RawColumn) (col : Column),
      (tableCols (readCsv raw))[i]? = some rcol → out[i]? = some col →
      (resolveType (effTypes types all_types) i rcol.name rcol.cells = .tDatetime →
        col.dtype = .tDatetime ∧ convertDtCells rcol.cells = .ok col.cells) ∧
      (resolveType (effTypes types all_types) i rcol.name rcol.cells = .tBool →
        col.dtype = .tBool ∧ col.cells = rcol.cells.map boolCell ∧
        (∀ (j : Nat) (oc : Option String), rcol.cells[j]? = some oc →
          (col.cells[j]? = some (Cell.cbool true) ↔ oc = some "true"))) := by
  obtain ⟨hb, stage1, hrl, h1, h2, hcast⟩ := processRawTable_ok_elim h
  obtain ⟨-, hrspec⟩ := resolveLoop_ok_spec (effTypes types all_types)
    (tableCols (readCsv raw)) 0 stage1 hrl
  obtain ⟨-, hcspec⟩ := castLoop_ok_spec stage1 out hcast
  intro i rcol col hrc hoc
  obtain ⟨entry, hse, hdt, hpend⟩ := hrspec i rcol hrc
  rw [Nat.zero_add] at hdt hpend
  obtain ⟨col', hcol', hname, hcdt, hcpend⟩ := hcspec i rcol.name entry hse
  rw [hoc] at hcol'
  injection hcol' with hcol'
  subst hcol'
  constructor
  · intro hr
    obtain ⟨cl, hcv, hent⟩ := hdt hr
    obtain ⟨hd1, hd2⟩ := hcdt cl hent
    rw [← hd2] at hcv
    exact ⟨hd1, hcv⟩
  · intro hr
    have hne : resolveType (effTypes types all_types) i rcol.name rcol.cells ≠ .tDatetime := by
      rw [hr]
      exact fun hc => PlDType.noConfusion hc
    have hent := hpend hne
    rw [hr] at hent
    obtain ⟨hp1, hp2⟩ := hcpend .tBool rcol.cells hent
    rw [mapM_castCell_bool] at hp2
    injection hp2 with hp2
    refine ⟨hp1, hp2.symm, ?_⟩
    intro j oc hj
    rw [← hp2]
    rw [List.getElem?_map, hj]
    cases oc with
    | none => simp [boolCell]
    | some s =>
      simp only [Option.map_some', Option.some.injEq, boolCell]
      constructor
      · intro hc
        injection hc with hc
        simp only [decide_eq_true_eq] at hc
        rw [hc]
      · intro hc
        rw [hc]
        simp

/-- A concrete CSV with a boolean and a timestamp column. -/
def csvW : String :=
  "b,ts\ntrue,2024-01-15 12:30:45.123 UTC\nno,2024-01-16 00:00:00.000 UTC"

/-- A strict type override covering both columns of `csvW`. -/
def atW : TypesSpec := .dictT [("b", some .tBool), ("ts", some .tDatetime)]

/-- The decoded table of `csvW` under `atW`. -/
def outW : List Column :=
  [⟨"b", .tBool, [.cbool true, .cbool false]⟩,
   ⟨"ts", .tDatetime, [.cdt 1705321845123, .cdt 1705363200000]⟩]

/-- Concrete instance of C8: the timestamp column of `csvW` decodes
through the fixed-format parser and the boolean column through literal
equality with `"true"`. -/
theorem timestamp_and_bool_decoding_witness :
    ((⟨"ts", .tDatetime, [.cdt 1705321845123, .cdt 1705363200000]⟩ : Column).dtype =
        .tDatetime ∧
      convertDtCells [some "2024-01-15 12:30:45.123 UTC", some "2024-01-16 00:00:00.000 UTC"] =
        .ok (⟨"ts", .tDatetime, [.cdt 1705321845123, .cdt 1705363200000]⟩ : Column).cells) ∧
    ((⟨"b", .tBool, [.cbool true, .cbool false]⟩ : Column).dtype = .tBool ∧
      (⟨"b", .tBool, [.cbool true, .cbool false]⟩ : Column).cells =
        [some "true", some "no"].map boolCell ∧
      (∀ (j : Nat) (oc : Option String),
        ([some "true", some "no"] : List (Option String))[j]? = some oc →
        ((⟨"b", .tBool, [.cbool true, .cbool false]⟩ : Column).cells[j]? =
          some (Cell.cbool true) ↔ oc = some "true"))) :=
  ⟨(timestamp_and_bool_decoding csvW none (some atW) outW (by decide) 1
      ⟨"ts", [some "2024-01-15 12:30:45.123 UTC", some "2024-01-16 00:00:00.000 UTC"]⟩
      ⟨"ts", .tDatetime, [.cdt 1705321845123, .cdt 1705363200000]⟩
      (by decide) (by decide)).1 (by decide),
   (timestamp_and_bool_decoding csvW none (some atW) outW (by decide) 0
      ⟨"b", [some "true", some "no"]⟩
      ⟨"b", .tBool, [.cbool true, .cbool false]⟩
      (by decide) (by decide)).2 (by decide)⟩

theorem tableCols_length (t : RawTable) : (tableCols t).length = t.header.length := by
  simp [tableCols]

theorem tableCols_getElem {t : RawTable} {i : Nat} {rcol : RawColumn}
    (h : (tableCols t)[i]? = some rcol) :
    i < t.header.length ∧ rcol.name = t.header.getD i "" ∧ rcol.name ∈ t.header := by
  rw [tableCols, List.getElem?_map] at h
  by_cases hi : i < t.header.length
  · rw [List.getElem?_range hi] at h
    simp only [Option.map_some', Option.some.injEq] at h
    refine ⟨hi, by rw [← h], ?_⟩
    rw [← h]
    show t.header.getD i "" ∈ t.header
    rw [List.getD_eq_getElem t.header "" hi]
    exact List.getElem_mem hi
  · rw [List.getElem?_eq_none_iff.mpr (by simpa using by omega : (List.range t.header.length).length ≤ i)] at h
    exact Option.noConfusion h

theorem resolveType_dict {m : List (String × Option PlDType)} {name : String} {t : PlDType}
    (i : Nat) (cells : List (Option String)) (h : assocLookup m name = some (some t)) :
    resolveType (some (.dictT m)) i name cells = t := by
  rw [resolveType, lookupOverride, h]
  rfl

theorem assocHasKey_of_lookup {V : Type} {m : List (String × V)} {k : String} {v : V}
    (h : assocLookup m k = some v) : assocHasKey m k = true := by
  rw [assocLookup] at h
  cases hf : m.find? (fun kv => kv.1 = k) with
  | none => rw [hf] at h; exact Option.noConfusion h
  | some kv =>
    rw [assocHasKey, List.any_eq_true]
    exact ⟨kv, List.mem_of_find?_eq_some hf, by
      have := List.find?_some hf
      simpa using this⟩

theorem resolveLoop_ok_intro (eff : Option TypesSpec) :
    ∀ (cols : List RawColumn) (c0 : Nat),
      (∀ i rcol, cols[i]? = some rcol →
        resolveType eff (c0 + i) rcol.name rcol.cells = .tDatetime →
        ∃ cl, convertDtCells rcol.cells = .ok cl) →
      ∃ s, resolveLoop eff cols c0 = .ok s := by
  intro cols
  induction cols with
  | nil => exact fun c0 _ => ⟨[], rfl⟩
  | cons col rest ih =>
    intro c0 hok
    have hrest : ∀ i rcol, rest[i]? = some rcol →
        resolveType eff (c0 + 1 + i) rcol.name rcol.cells = .tDatetime →
        ∃ cl, convertDtCells rcol.cells = .ok cl := by
      intro i rcol hi hr
      refine hok (i + 1) rcol (by simpa using hi) ?_
      rw [show c0 + (i + 1) = c0 + 1 + i by omega]
      exact hr
    obtain ⟨s, hs⟩ := ih (c0 + 1) hrest
    by_cases hdt : resolveType eff c0 col.name col.cells = .tDatetime
    · obtain ⟨cl, hcl⟩ := hok 0 col (by simp) (by simpa using hdt)
      rw [resolveLoop, if_pos hdt, hcl, hs]
      exact ⟨_, rfl⟩
    · rw [resolveLoop, if_neg hdt, hs]
      exact ⟨_, rfl⟩

theorem castLoop_ok_intro :
    ∀ (s : List (String × Stage1Entry)),
      (∀ (i : Nat) (name : String) (t : PlDType) (cells : List (Option String)),
        s[i]? = some (name, .pending t cells) →
        ∃ cl, cells.mapM (castCell t) = .ok cl) →
      ∃ out, castLoop s = .ok out := by
  intro s
  induction s with
  | nil => exact fun _ => ⟨[], rfl⟩
  | cons pr rest ih =>
    intro hok
    have hrest : ∀ (i : Nat) (name : String) (t : PlDType) (cells : List (Option String)),
        rest[i]? = some (name, .pending t cells) →
        ∃ cl, cells.mapM (castCell t) = .ok cl := by
      intro i name t cells hi
      exact hok (i + 1) name t cells (by simpa using hi)
    obtain ⟨out, hout⟩ := ih hrest
    match pr with
    | (name, .dtDone cells) =>
      rw [castLoop, hout]
      exact ⟨_, rfl⟩
    | (name, .pending t cells) =>
      obtain ⟨cl, hcl⟩ := hok 0 name t cells (by simp)
      rw [castLoop, hcl, hout]
      exact ⟨_, rfl⟩

/-- Whether every mapped column of the table casts successfully to its
mapped type: the side condition of the strict-mode success case. -/
def strictCastsOk (m : List (String × Option PlDType)) (cols : List RawColumn) : Prop :=
  ∀ (i : Nat) (rcol : RawColumn) (t : PlDType),
    cols[i]? = some rcol → assocLookup m rcol.name = some (some t) →
    ((t = .tDatetime → ∃ cl, convertDtCells rcol.cells = .ok cl) ∧
     (t ≠ .tDatetime → ∃ cl, rcol.cells.mapM (castCell t) = .ok cl))

/-- C7: supplying both `types` and `all_types` fails; in strict
`all_types` mode decoding succeeds only when the mapping keys and the
data columns cover each other exactly, a coverage violation (with
successful per-column resolution) surfaces as one of the two schema
errors, and a complete mapping over the data columns decodes to a table
whose column types are exactly the mapped types. -/
theorem strict_all_types_coverage :
    (∀ (raw : String) (tspec aspec : TypesSpec),
      processRawTable raw (some tspec) (some aspec) =
        .error "cannot specify both types and all_types") ∧
    (∀ (raw : String) (m : List (String × Option PlDType)) (out : List Column),
      processRawTable raw none (some (.dictT m)) = .ok out →
      (∀ k ∈ m.map Prod.fst, k ∈ (readCsv raw).header) ∧
      (∀ nm ∈ (readCsv raw).header, assocHasKey m nm = true)) ∧
    (∀ (raw : String) (m : List (String × Option PlDType))
      (s1 : List (String × Stage1Entry)),
      resolveLoop (some (.dictT m)) (tableCols (readCsv raw)) 0 = .ok s1 →
      (dictMissingCols (some (.dictT m)) (readCsv raw).header ≠ [] ∨
       coverMissingCols (some (.dictT m)) (readCsv raw).header ≠ []) →
      processRawTable raw none (some (.dictT m)) =
        .error (typesForMissingMsg (dictMissingCols (some (.dictT m)) (readCsv raw).header)) ∨
      processRawTable raw none (some (.dictT m)) =
        .error (typesNotSpecifiedMsg (coverMissingCols (some (.dictT m))
          (readCsv raw).header))) ∧
    (∀ (raw : String) (m : List (String × Option PlDType)),
      (∀ nm ∈ (readCsv raw).header, ∃ t, assocLookup m nm = some (some t)) →
      (∀ k ∈ m.map Prod.fst, k ∈ (readCsv raw).header) →
      strictCastsOk m (tableCols (readCsv raw)) →
      ∃ out, processRawTable raw none (some (.dictT m)) = .ok out ∧
        out.length = (readCsv raw).header.length ∧
        ∀ (i : Nat) (rcol : RawColumn) (col : Column),
          (tableCols (readCsv raw))[i]? = some rcol → out[i]? = some col →
          col.name = rcol.name ∧
          ∀ t, assocLookup m rcol.name = some (some t) → col.dtype = t) := by
  refine ⟨fun raw tspec aspec => rfl, ?_, ?_, ?_⟩
  · intro raw m out h
    obtain ⟨-, s1, -, h1, h2, -⟩ := processRawTable_ok_elim h
    rw [show effTypes none (some (.dictT m)) = some (.dictT m) from rfl] at h1
    constructor
    · intro k hk
      rw [dictMissingCols] at h1
      have := List.filter_eq_nil_iff.mp h1 k hk
      simp only [Bool.not_eq_true, Bool.not_eq_eq_eq_not, Bool.not_true] at this
      have hcontains : (readCsv raw).header.contains k = true := by
        cases hc : (readCsv raw).header.contains k with
        | false => exact absurd hc this
        | true => rfl
      exact List.mem_of_elem_eq_true hcontains
    · intro nm hnm
      rw [coverMissingCols] at h2
      have := List.filter_eq_nil_iff.mp h2 nm hnm
      have hcontains : allTypesContains (.dictT m) nm = true := by
        cases hc : allTypesContains (.dictT m) nm with
        | false => rw [hc] at this; exact absurd rfl this
        | true => rfl
      exact hcontains
  · intro raw m s1 hrl hne
    have heff : effTypes none (some (.dictT m)) = some (.dictT m) := rfl
    by_cases h1 : dictMissingCols (some (.dictT m)) (readCsv raw).header = []
    · have h2 : coverMissingCols (some (.dictT m)) (readCsv raw).header ≠ [] := by
        rcases hne with hne | hne
        · exact absurd h1 hne
        · exact hne
      right
      simp only [processRawTable]
      rw [if_neg (by simp), heff, hrl]
      show (if (!(dictMissingCols (some (.dictT m)) (readCsv raw).header).isEmpty) = true
        then Except.error
          (typesForMissingMsg (dictMissingCols (some (.dictT m)) (readCsv raw).header))
        else if (!(coverMissingCols (some (.dictT m)) (readCsv raw).header).isEmpty) = true
          then Except.error
            (typesNotSpecifiedMsg (coverMissingCols (some (.dictT m)) (readCsv raw).header))
          else castLoop s1) = _
      rw [if_neg (by rw [h1]; decide)]
      rw [if_pos (by
        cases hc : (coverMissingCols (some (.dictT m)) (readCsv raw).header).isEmpty with
        | false => rfl
        | true => exact absurd (List.isEmpty_iff.mp hc) h2)]
    · left
      simp only [processRawTable]
      rw [if_neg (by simp), heff, hrl]
      show (if (!(dictMissingCols (some (.dictT m)) (readCsv raw).header).isEmpty) = true
        then Except.error
          (typesForMissingMsg (dictMissingCols (some (.dictT m)) (readCsv raw).header))
        else if (!(coverMissingCols (some (.dictT m)) (readCsv raw).header).isEmpty) = true
          then Except.error
            (typesNotSpecifiedMsg (coverMissingCols (some (.dictT m)) (readCsv raw).header))
          else castLoop s1) = _
      rw [if_pos (by
        cases hc : (dictMissingCols (some (.dictT m)) (readCsv raw).header).isEmpty with
        | false => rfl
        | true => exact absurd (List.isEmpty_iff.mp hc) h1)]
  · intro raw m hcover hkeys hcasts
    have heff : effTypes none (some (.dictT m)) = some (.dictT m) := rfl
    have hresolve : ∀ (i : Nat) (rcol : RawColumn),
        (tableCols (readCsv raw))[i]? = some rcol →
        ∃ t, assocLookup m rcol.name = some (some t) ∧
          resolveType (some (.dictT m)) i rcol.name rcol.cells = t := by
      intro i rcol hi
      obtain ⟨-, -, hmem⟩ := tableCols_getElem hi
      obtain ⟨t, ht⟩ := hcover rcol.name hmem
      exact ⟨t, ht, resolveType_dict i rcol.cells ht⟩
    obtain ⟨s1, hs1⟩ := resolveLoop_ok_intro (some (.dictT m)) (tableCols (readCsv raw)) 0
      (by
        intro i rcol hi hdt
        obtain ⟨t, ht, hres⟩ := hresolve i rcol (by simpa using hi)
        rw [show (0 : Nat) + i = i by omega] at hdt
        rw [hres] at hdt
        subst hdt
        exact ((hcasts i rcol _ (by simpa using hi) ht).1 rfl))
    obtain ⟨hs1len, hs1spec⟩ := resolveLoop_ok_spec (some (.dictT m))
      (tableCols (readCsv raw)) 0 s1 hs1
    obtain ⟨out, hout⟩ := castLoop_ok_intro s1 (by
      intro i name t cells hi
      have hlt : i < s1.length := by
        by_contra hc
        rw [List.getElem?_eq_none_iff.mpr (by omega)] at hi
        exact Option.noConfusion hi
      have hltc : i < (tableCols (readCsv raw)).length := by
        rw [← hs1len]
        exact hlt
      obtain ⟨rcol, hrc⟩ : ∃ rcol, (tableCols (readCsv raw))[i]? = some rcol :=
        ⟨(tableCols (readCsv raw))[i],
          (List.getElem?_eq_some_getElem_iff _ _ hltc).mpr trivial⟩
      obtain ⟨entry, hse, hdt, hpend⟩ := hs1spec i rcol hrc
      rw [hi] at hse
      injection hse with hse
      injection hse with hname hentry
      obtain ⟨t', ht', hres⟩ := hresolve i rcol hrc
      rw [Nat.zero_add] at hdt hpend
      by_cases hdt' : resolveType (some (.dictT m)) i rcol.name rcol.cells = .tDatetime
      · obtain ⟨cl, hcv, hent⟩ := hdt hdt'
        rw [← hentry] at hent
        exact Stage1Entry.noConfusion hent
      · have hent := hpend hdt'
        rw [hres] at hent
        rw [← hentry] at hent
        injection hent with h1 h2
        subst h1
        subst h2
        have htne : t ≠ .tDatetime := by
          rw [hres] at hdt'
          exact hdt'
        exact (hcasts i rcol t hrc ht').2 htne)
    obtain ⟨hclen, hcspec⟩ := castLoop_ok_spec s1 out hout
    have hd1 : dictMissingCols (effTypes none (some (.dictT m))) (readCsv raw).header = [] := by
      rw [heff, dictMissingCols]
      rw [List.filter_eq_nil_iff]
      intro k hk
      show ¬(!(readCsv raw).header.elem k) = true
      rw [List.elem_eq_true_of_mem (hkeys k hk)]
      decide
    have hd2 : coverMissingCols (some (.dictT m)) (readCsv raw).header = [] := by
      rw [coverMissingCols]
      rw [List.filter_eq_nil_iff]
      intro nm hnm
      obtain ⟨t, ht⟩ := hcover nm hnm
      show ¬(!allTypesContains (.dictT m) nm) = true
      rw [show allTypesContains (.dictT m) nm = assocHasKey m nm from rfl,
        assocHasKey_of_lookup ht]
      decide
    refine ⟨out, processRawTable_ok_intro (by simp) (by rw [heff]; exact hs1) hd1 hd2 hout,
      ?_, ?_⟩
    · rw [hclen, hs1len, tableCols_length]
    · intro i rcol col hrc hoc
      obtain ⟨entry, hse, hdt, hpend⟩ := hs1spec i rcol hrc
      obtain ⟨col', hcol', hname, hcdt, hcpend⟩ := hcspec i rcol.name entry hse
      rw [hoc] at hcol'
      injection hcol' with hcol'
      subst hcol'
      refine ⟨hname, ?_⟩
      intro t ht
      have hres := resolveType_dict i rcol.cells ht
      rw [Nat.zero_add] at hdt hpend
      by_cases hteq : t = .tDatetime
      · obtain ⟨cl, hcv, hent⟩ := hdt (by rw [hres, hteq])
        rw [hteq]
        exact (hcdt cl hent).1
      · have hent := hpend (by rw [hres]; exact hteq)
        rw [hres] at hent
        exact (hcpend t rcol.cells hent).1

/-- Concrete instances of C7: a successful strict decode has exact
coverage, and dropping a column from the mapping surfaces one of the two
schema errors. -/
theorem strict_all_types_coverage_witness :
    ((∀ k ∈ ([("b", some PlDType.tBool), ("ts", some PlDType.tDatetime)].map Prod.fst),
        k ∈ (readCsv csvW).header) ∧
      (∀ nm ∈ (readCsv csvW).header,
        assocHasKey [("b", some PlDType.tBool), ("ts", some PlDType.tDatetime)] nm = true)) ∧
    (processRawTable csvW none (some (.dictT [("b", some PlDType.tBool)])) =
        .error (typesForMissingMsg
          (dictMissingCols (some (.dictT [("b", some PlDType.tBool)])) (readCsv csvW).header)) ∨
     processRawTable csvW none (some (.dictT [("b", some PlDType.tBool)])) =
        .error (typesNotSpecifiedMsg
          (coverMissingCols (some (.dictT [("b", some PlDType.tBool)]))
            (readCsv csvW).header))) :=
  ⟨strict_all_types_coverage.2.1 csvW
      [("b", some PlDType.tBool), ("ts", some PlDType.tDatetime)] outW (by decide),
   strict_all_types_coverage.2.2.1 csvW [("b", some PlDType.tBool)]
      [("b", .pending .tBool [some "true", some "no"]),
       ("ts", .pending .tStr
         [some "2024-01-15 12:30:45.123 UTC", some "2024-01-16 00:00:00.000 UTC"])]
      (by decide) (by decide)⟩

end Spice
